import Mathlib

/-!
Verification of the CPF (compressed prompt format) core: a shallow embedding of
the repository's Python sources (`cpf/spec.py`, `cpf/ast_nodes.py`,
`cpf/parser.py`, `cpf/formatter.py`, `cpf/validator.py`, `cpf/patterns.py`,
`cpf/tokenizer.py`, `cpf/abbreviations.py`, `cpf/encoder.py`, `cpf/decoder.py`,
`cpf/utils.py`) together with theorems settling the specification's claims.

Modelling conventions:
* Python `str` is embedded as `List Char` (named `Str` below); text operations
  (`strip`, `rstrip`, `splitlines`, `split`) are implemented character by
  character, following CPython's semantics for the whitespace and
  line-break character sets.
* The embedding models text at the ASCII end of Unicode: the character classes
  `\w`, `\s`, upper/lower-casing and `str.title()` are the ASCII ones (the
  repository's own data — sigils, operators, abbreviation tables — is ASCII).
* Python `dict` is embedded as an association list in insertion order with
  unique keys; `{**a, **b}` / `dict.update` keep the position of overwritten
  keys and append fresh ones, as CPython does.
* Python `float` arithmetic in threshold comparisons (`x / y > 0.6`) is
  idealised as exact rational comparison (`10 * x > 6 * y`); the two agree on
  all realistic input sizes.
* Functions that can raise return `Except`; `datetime.now` is modelled by
  passing the timestamp as an explicit argument.
-/

/-- A Python string, embedded as its list of characters. -/
abbrev Str := List Char

/-- The characters `str.splitlines` treats as line boundaries (CPython). -/
def isPyLineBreak (c : Char) : Bool :=
  c = '\n' || c = '\r' || c = '\x0B' || c = '\x0C' ||
  c = '\x1C' || c = '\x1D' || c = '\x1E' || c = '\u0085' ||
  c = '\u2028' || c = '\u2029'

/-- The characters `str.strip()` removes and `\s` matches (CPython's
`str.isspace` set). -/
def isPySpace (c : Char) : Bool :=
  c = ' ' || c = '\t' || c = '\n' || c = '\r' || c = '\x0B' || c = '\x0C' ||
  c = '\x1C' || c = '\x1D' || c = '\x1E' || c = '\x1F' ||
  c = '\u0085' || c = '\u00A0' || c = '\u1680' ||
  ('\u2000' ≤ c && c ≤ '\u200A') ||
  c = '\u2028' || c = '\u2029' || c = '\u202F' || c = '\u205F' || c = '\u3000'

/-- Python `str.lstrip()`. -/
def plstrip (s : Str) : Str := s.dropWhile isPySpace

/-- Python `str.rstrip()`. -/
def prstrip (s : Str) : Str := (s.reverse.dropWhile isPySpace).reverse

/-- Python `str.strip()`. -/
def pstrip (s : Str) : Str := plstrip (prstrip s)

/-- Helper for `splitLines`; accumulates the current line in reverse.
`"\r\n"` counts as a single boundary (tracked by the `sawCR` flag: a `'\n'`
immediately after a `'\r'` is swallowed); every other break character is its
own boundary. -/
def splitLinesAux : Str → Str → Bool → List Str
  | [], cur, _ => if cur.isEmpty then [] else [cur.reverse]
  | c :: rest, cur, sawCR =>
    if sawCR && c = '\n' then splitLinesAux rest cur false
    else if c = '\r' then cur.reverse :: splitLinesAux rest [] true
    else if isPyLineBreak c then cur.reverse :: splitLinesAux rest [] false
    else splitLinesAux rest (c :: cur) false

/-- Python `str.splitlines()`. -/
def splitLines (s : Str) : List Str := splitLinesAux s [] false

/-- Python `str.split(sep)` for a one-character separator. -/
def splitOnChar (sep : Char) : Str → List Str
  | [] => [[]]
  | c :: rest =>
    let r := splitOnChar sep rest
    if c = sep then [] :: r
    else match r with
      | [] => [[c]]
      | h :: t => (c :: h) :: t

/-- Decimal rendering of a natural number (for message interpolation). -/
def natToStr (n : Nat) : Str := (toString n).data

/-- `", ".join(strs)`. -/
def joinCommaSp (l : List Str) : Str := List.intercalate (", ".data) l

/-- `"\n".join(strs)`. -/
def joinNewline : List Str → Str
  | [] => []
  | [l] => l
  | l :: t => l ++ '\n' :: joinNewline t

/-- Lexicographic `≤` on strings, as Python compares `str` (by code point). -/
def strLexLe : Str → Str → Bool
  | [], _ => true
  | _ :: _, [] => false
  | a :: as', b :: bs' =>
    if a = b then strLexLe as' bs' else decide (a < b)

/-- Stable insertion keeping a list sorted by `le` (used for Python's stable
`sorted`). An element is placed before the first entry it is `le`-related to
strictly, and after equals, which preserves input order on ties. -/
def stableInsert (le : α → α → Bool) (x : α) : List α → List α
  | [] => [x]
  | y :: ys => if le x y && !le y x then x :: y :: ys else y :: stableInsert le x ys

/-- Python's stable `sorted(l, key=...)` given a total preorder test `le`. -/
def stableSort (le : α → α → Bool) (l : List α) : List α :=
  l.foldr (stableInsert le) []

/-- A Python `dict` from `str` to `str`: an association list in insertion
order with unique keys. -/
abbrev Dict := List (Str × Str)

/-- `d[k]` lookup (`None` when absent). -/
def dictGet (d : Dict) (k : Str) : Option Str :=
  (d.find? (fun p => p.1 = k)).map (·.2)

/-- `k in d`. -/
def dictHasKey (d : Dict) (k : Str) : Bool := d.any (fun p => p.1 = k)

/-- `d[k] = v`: overwrite in place when the key exists (keeping its position,
as CPython dicts do), else append. -/
def dictSet (d : Dict) (k v : Str) : Dict :=
  if dictHasKey d k then d.map (fun p => if p.1 = k then (k, v) else p)
  else d ++ [(k, v)]

/-- `d.update(e)` / `{**d, **e}`. -/
def dictUpdate (d e : Dict) : Dict :=
  e.foldl (fun acc p => dictSet acc p.1 p.2) d

/-- `sorted(d.items(), key=lambda x: len(x[0]), reverse=True)` — Python's
stable sort, descending by key length. -/
def sortByKeyLenDesc (d : Dict) : Dict :=
  stableSort (fun a b => b.1.length ≤ a.1.length) d

/-- Whether `needle` occurs as a contiguous substring (`needle in hay`). -/
def containsSub (hay needle : Str) : Bool :=
  (List.range (hay.length + 1)).any (fun i => needle.isPrefixOf (hay.drop i))

/- ------------------------------------------------------------------ -/
/- cpf/spec.py — format constants                                      -/
/- ------------------------------------------------------------------ -/

def VERSION : Str := "v1".data

def FORMAT_HEADER : Str := "CPF|v1".data

def METADATA_PREFIX : Str := "M|".data

def SECTION_SEPARATOR : Str := "---".data

/-- `SIGILS` — block-type sigils in source (insertion) order. -/
def SIGILS : Dict :=
  [("R".data, "rule".data), ("P".data, "priority".data),
   ("N".data, "negation".data), ("S".data, "sequence".data),
   ("T".data, "tone".data), ("X".data, "exact".data),
   ("Z".data, "zone".data), ("C".data, "constant".data),
   ("B".data, "blob".data)]

/-- `OPERATORS` — structural operators (longest first), as in the source. -/
def OPERATORS : Dict :=
  [("?!".data, "if_not".data), ("->".data, "then".data),
   ("!!".data, "never".data), ("::".data, "definition".data),
   ("@>".data, "delegate".data), ("=>".data, "produces".data),
   ("?".data, "if".data), (";".data, "else".data),
   ("+".data, "and".data), ("|".data, "or".data),
   ("*".data, "emphasis".data), ("~".data, "approx".data)]

def HEREDOC_OPEN : Str := "<<".data

def HEREDOC_CLOSE : Str := ">>".data

/-- `re.compile(r"^@([A-Z]):(.+)$").match(s)`: returns the two captures.
`.` does not cross `'\n'`, and `$` accepts the end of the string or a single
trailing `'\n'`; the greedy `(.+)` therefore captures the maximal run of
non-newline characters after the colon. -/
def blockHeaderMatch : Str → Option (Char × Str)
  | '@' :: c :: ':' :: rest =>
    if 'A' ≤ c && c ≤ 'Z' then
      let g2 := rest.takeWhile (fun x => x ≠ '\n')
      let tail2 := rest.dropWhile (fun x => x ≠ '\n')
      if g2 ≠ [] && (tail2 = [] || tail2 = ['\n']) then some (c, g2) else none
    else none
  | _ => none

/- ------------------------------------------------------------------ -/
/- cpf/ast_nodes.py — AST dataclasses                                  -/
/- ------------------------------------------------------------------ -/

/-- `Metadata` dataclass. -/
structure Metadata where
  doc_id : Str
  title : Str
  source : Str
  timestamp : Str
deriving DecidableEq, Repr

/-- `Block` dataclass. -/
structure Block where
  sigil : Str
  block_id : Str
  lines : List Str := []
  is_heredoc : Bool := false
deriving DecidableEq, Repr

/-- `CPFDocument` dataclass. -/
structure CPFDocument where
  version : Str
  metadata : Metadata
  blocks : List Block := []
deriving DecidableEq, Repr

/-- `CPFDocument.get_blocks_by_sigil`. -/
def CPFDocument.get_blocks_by_sigil (d : CPFDocument) (sigil : Str) : List Block :=
  d.blocks.filter (fun b => b.sigil = sigil)

/-- `s.partition("::")`, reduced to the parts before and after the first
occurrence of `"::"` (when absent: the whole string and the empty string,
matching Python's `(s, '', '')`). -/
def partitionDefSep : Str → Str × Str
  | [] => ([], [])
  | ':' :: ':' :: rest => ([], rest)
  | c :: rest =>
    let p := partitionDefSep rest
    (c :: p.1, p.2)

/-- `CPFDocument.get_constants`: every `key::value` pair (split on `;`) found
in `@C`-block lines, as a dict (later occurrences of a key overwrite). -/
def CPFDocument.get_constants (d : CPFDocument) : Dict :=
  (d.get_blocks_by_sigil ("C".data)).foldl
    (fun acc b =>
      b.lines.foldl
        (fun acc2 line =>
          (splitOnChar ';' line).foldl
            (fun acc3 pairRaw =>
              let pair := pstrip pairRaw
              if containsSub pair ("::".data) then
                let p := partitionDefSep pair
                dictSet acc3 (pstrip p.1) (pstrip p.2)
              else acc3)
            acc2)
        acc)
    []

/- ------------------------------------------------------------------ -/
/- cpf/formatter.py                                                    -/
/- ------------------------------------------------------------------ -/

/-- The `@SIGIL:block_id` header line the formatter writes for a block. -/
def headerLineOf (b : Block) : Str := '@' :: b.sigil ++ ':' :: b.block_id

/-- A block's content lines as formatted: wrapped in heredoc markers for
heredoc blocks, the raw lines otherwise. -/
def blockContentOut (b : Block) : List Str :=
  if b.is_heredoc then [HEREDOC_OPEN] ++ b.lines ++ [HEREDOC_CLOSE] else b.lines

/-- The per-block lines the formatter appends: a blank line, the
`@SIGIL:block_id` header, then the content. -/
def blockOutLines (b : Block) : List Str :=
  [([] : Str), headerLineOf b] ++ blockContentOut b

/-- The flat line list `format_document` builds before joining. -/
def formatLines (doc : CPFDocument) : List Str :=
  [FORMAT_HEADER,
   METADATA_PREFIX ++ doc.metadata.doc_id ++ '|' :: doc.metadata.title ++
     '|' :: doc.metadata.source ++ '|' :: doc.metadata.timestamp,
   SECTION_SEPARATOR] ++ (doc.blocks.map blockOutLines).flatten

/-- `format_document`: `"\n".join(lines) + "\n"`. -/
def format_document (doc : CPFDocument) : Str :=
  joinNewline (formatLines doc) ++ ['\n']

/- ------------------------------------------------------------------ -/
/- cpf/parser.py                                                       -/
/- ------------------------------------------------------------------ -/

/-- `ParseError`: 1-indexed line number and message. -/
structure ParseErr where
  line_num : Nat
  message : Str
deriving DecidableEq, Repr

/-- `_parse_metadata`: split the (stripped) metadata line after `"M|"` on
`"|"`; needs at least 4 fields, extra fields are ignored. -/
def parseMetadata (line : Str) (lineNum : Nat) : Except ParseErr Metadata :=
  let parts := splitOnChar '|' (line.drop METADATA_PREFIX.length)
  match parts with
  | p0 :: p1 :: p2 :: p3 :: _ =>
    .ok ⟨pstrip p0, pstrip p1, pstrip p2, pstrip p3⟩
  | _ =>
    .error ⟨lineNum,
      ("Metadata needs 4 pipe-separated fields after 'M|', got ".data)
        ++ natToStr parts.length⟩

/-- The content-collection inner loop of `parse`: take raw lines until the
next line whose stripped form matches the block-header pattern (or
end-of-input), returning them with the unconsumed rest. -/
def dropContent : List Str → List Str × List Str
  | [] => ([], [])
  | l :: rest =>
    if (blockHeaderMatch (pstrip l)).isSome then ([], l :: rest)
    else
      let p := dropContent rest
      (l :: p.1, p.2)

theorem dropContent_rest_le (ls : List Str) : (dropContent ls).2.length ≤ ls.length := by
  induction ls with
  | nil => simp [dropContent]
  | cons l rest ih =>
    by_cases h : (blockHeaderMatch (pstrip l)).isSome
    · simp [dropContent, h]
    · simp [dropContent, h]
      omega

/-- Post-processing of the collected content lines, as the `parse` loop does
on the fly: skip blank lines before the first content line, right-strip each
kept line, then pop trailing blank lines. -/
def cleanContent (raw : List Str) : List Str :=
  ((((raw.dropWhile (fun l => pstrip l = [])).map prstrip).reverse.dropWhile
    (fun l => pstrip l = [])).reverse)

/-- `_parse_heredoc`'s collection loop after the open marker: gather
right-stripped lines until the close marker; `openIdx` is the 0-based index of
the open-marker line (used in the unclosed-heredoc error). Returns the
content, the unconsumed rest and the 0-based index of the rest's head. -/
def heredocCollect (openIdx : Nat) : List Str → Nat → Except ParseErr (List Str × List Str × Nat)
  | [], _ =>
    .error ⟨openIdx + 1, "Unclosed heredoc block (missing '>>')".data⟩
  | l :: rest, i =>
    if pstrip l = HEREDOC_CLOSE then .ok ([], rest, i + 1)
    else
      (heredocCollect openIdx rest (i + 1)).map
        (fun p => (prstrip l :: p.1, p.2.1, p.2.2))

/-- `_parse_heredoc`: the line at `start` must be the open marker. -/
def parseHeredoc : List Str → Nat → Except ParseErr (List Str × List Str × Nat)
  | [], start =>
    .error ⟨start + 1, "Expected '<<' to start heredoc block".data⟩
  | l :: rest, start =>
    if pstrip l = HEREDOC_OPEN then heredocCollect start rest (start + 1)
    else .error ⟨start + 1, "Expected '<<' to start heredoc block".data⟩

theorem heredocCollect_rest_le (openIdx : Nat) (ls : List Str) (i : Nat)
    (res : List Str × List Str × Nat)
    (h : heredocCollect openIdx ls i = .ok res) : res.2.1.length ≤ ls.length := by
  induction ls generalizing i res with
  | nil => simp [heredocCollect] at h
  | cons l rest ih =>
    by_cases hc : pstrip l = HEREDOC_CLOSE
    · simp [heredocCollect, hc] at h
      subst h; simp
    · simp [heredocCollect, hc, Except.map] at h
      cases hr : heredocCollect openIdx rest (i + 1) with
      | error e => rw [hr] at h; simp at h
      | ok p =>
        rw [hr] at h; simp at h
        have := ih (i + 1) p hr
        subst h
        simp
        omega

theorem parseHeredoc_rest_le (ls : List Str) (start : Nat)
    (res : List Str × List Str × Nat)
    (h : parseHeredoc ls start = .ok res) : res.2.1.length ≤ ls.length := by
  cases ls with
  | nil => simp [parseHeredoc] at h
  | cons l rest =>
    by_cases ho : pstrip l = HEREDOC_OPEN
    · simp [parseHeredoc, ho] at h
      have := heredocCollect_rest_le start rest (start + 1) res h
      simp
      omega
    · simp [parseHeredoc, ho] at h

/-- The block-scanning loop of `parse` (lines 56–103 of `parser.py`);
`i` is the 0-based index of the head of the remaining line list.

The loop advances through the line list; as a Lean function it recurses on a
`fuel` counter. `parse` passes the number of lines as fuel, which always
suffices: every recursive call consumes at least one line but exactly one
unit of fuel (`parseBlocks_fuel_ge` below makes this exact). -/
def parseBlocks (fuel : Nat) (lines : List Str) (i : Nat) : Except ParseErr (List Block) :=
  match fuel, lines with
  | _, [] => .ok []
  | 0, _ :: _ => .ok []   -- unreachable when fuel ≥ lines.length
  | fuel + 1, l :: rest =>
    let s := pstrip l
    if s = [] then parseBlocks fuel rest (i + 1)
    else
      match blockHeaderMatch s with
      | some cg =>
        let sigil : Str := [cg.1]
        let bid := pstrip cg.2
        if dictHasKey SIGILS sigil then
          if sigil = "B".data then
            match parseHeredoc rest (i + 1) with
            | .error e => .error e
            | .ok p =>
              (parseBlocks fuel p.2.1 p.2.2).map
                (fun bs => ⟨sigil, bid, p.1, true⟩ :: bs)
          else
            let p := dropContent rest
            (parseBlocks fuel p.2 (i + 1 + p.1.length)).map
              (fun bs => ⟨sigil, bid, cleanContent p.1, false⟩ :: bs)
        else
          .error ⟨i + 1, ("Unknown sigil '".data) ++ sigil ++ ("'. Valid: ".data)
            ++ joinCommaSp (SIGILS.map (·.1))⟩
      | none => parseBlocks fuel rest (i + 1)

/-- Extra fuel beyond the number of lines never changes `parseBlocks`. -/
theorem parseBlocks_fuel_ge (fuel fuel' : Nat) (ls : List Str) (i : Nat)
    (h : ls.length ≤ fuel) (h' : ls.length ≤ fuel') :
    parseBlocks fuel ls i = parseBlocks fuel' ls i := by
  induction fuel using Nat.strong_induction_on generalizing fuel' ls i with
  | _ fuel ih =>
    match fuel, fuel', ls with
    | f, f', [] => cases f <;> cases f' <;> rfl
    | 0, _, _ :: _ => simp at h
    | _ + 1, 0, _ :: _ => simp at h'
    | f + 1, f' + 1, l :: rest =>
      simp only [List.length_cons, Nat.add_le_add_iff_right] at h h'
      show parseBlocks (f + 1) (l :: rest) i = parseBlocks (f' + 1) (l :: rest) i
      simp only [parseBlocks]
      by_cases hb : pstrip l = []
      · simp only [hb, if_pos]
        exact ih f (Nat.lt_succ_self f) f' rest (i + 1) (le_trans h (Nat.le_refl f)) h'
      · simp only [if_neg hb]
        cases hm : blockHeaderMatch (pstrip l) with
        | none =>
          exact ih f (Nat.lt_succ_self f) f' rest (i + 1) h h'
        | some cg =>
          by_cases hs : dictHasKey SIGILS [cg.1]
          · simp only [hs, if_pos]
            by_cases hB : ([cg.1] : Str) = "B".data
            · simp only [hB, if_pos]
              cases hh : parseHeredoc rest (i + 1) with
              | error e => rfl
              | ok p =>
                have hle := parseHeredoc_rest_le rest (i + 1) p hh
                show Except.map _ (parseBlocks f p.2.1 p.2.2)
                  = Except.map _ (parseBlocks f' p.2.1 p.2.2)
                rw [ih f (Nat.lt_succ_self f) f' p.2.1 p.2.2
                  (le_trans hle h) (le_trans hle h')]
            · simp only [if_neg hB]
              have hle := dropContent_rest_le rest
              rw [ih f (Nat.lt_succ_self f) f' (dropContent rest).2
                (i + 1 + (dropContent rest).1.length)
                (le_trans hle h) (le_trans hle h')]
          · simp only [if_neg hs]

/-- `parse`, lines 49–51 and 53–109: separator check, then the block loop. -/
def parseFromSeparator (md : Metadata) : List Str → Except ParseErr CPFDocument
  | [] => .error ⟨3, "Expected '---' separator".data⟩
  | l2 :: rest2 =>
    if pstrip l2 ≠ SECTION_SEPARATOR then
      .error ⟨3, "Expected '---' separator".data⟩
    else
      (parseBlocks rest2.length rest2 3).map (fun bs => ⟨VERSION, md, bs⟩)

/-- `parse`, lines 43–47: metadata line check and parse. -/
def parseFromMetadata : List Str → Except ParseErr CPFDocument
  | [] => .error ⟨2, "Expected metadata line starting with 'M|'".data⟩
  | l1 :: rest1 =>
    if ¬ METADATA_PREFIX.isPrefixOf (pstrip l1) then
      .error ⟨2, "Expected metadata line starting with 'M|'".data⟩
    else
      match parseMetadata (pstrip l1) 2 with
      | .error e => .error e
      | .ok md => parseFromSeparator md rest1

/-- `parse`, lines 35–41: empty check and format-header check. -/
def parseFromHeader : List Str → Except ParseErr CPFDocument
  | [] => .error ⟨1, "Empty document".data⟩
  | l0 :: rest0 =>
    if pstrip l0 ≠ FORMAT_HEADER then
      .error ⟨1, ("Expected '".data) ++ FORMAT_HEADER ++ ("', got '".data)
        ++ pstrip l0 ++ ("'".data)⟩
    else parseFromMetadata rest0

/-- `parse`: CPF text → `CPFDocument`, or a `ParseError`. -/
def parseDoc (text : Str) : Except ParseErr CPFDocument :=
  parseFromHeader (splitLines text)

/- ------------------------------------------------------------------ -/
/- cpf/validator.py                                                    -/
/- ------------------------------------------------------------------ -/

/-- `ValidationError` dataclass: line, message, severity. -/
structure VErr where
  line : Nat
  message : Str
  severity : Str := "error".data
deriving DecidableEq, Repr

/-- The block-scanning loop of `validate` (lines 70–126 of `validator.py`):
`ids` is the set of block ids seen so far, `inH`/`hStart` track the heredoc
state machine. The loop recurses on a `fuel` counter; `validate` passes the
number of lines, which always suffices (each call consumes at least one line
and exactly one unit of fuel). -/
def validateBlocks (fuel : Nat) (lines : List Str) (i : Nat) (ids : List Str)
    (inH : Bool) (hStart : Nat) : List VErr :=
  match fuel, lines with
  | _, [] =>
    if inH then
      [⟨hStart + 1, "Unclosed heredoc block (missing '>>')".data, "error".data⟩]
    else []
  | 0, _ :: _ => []   -- unreachable when fuel ≥ lines.length
  | fuel + 1, l :: rest =>
    let s := pstrip l
    if inH then
      validateBlocks fuel rest (i + 1) ids (!(s = HEREDOC_CLOSE)) hStart
    else if s = [] then validateBlocks fuel rest (i + 1) ids false hStart
    else
      match blockHeaderMatch s with
      | some cg =>
        let sigil : Str := [cg.1]
        let bid := pstrip cg.2
        let e1 : List VErr :=
          if ¬ dictHasKey SIGILS sigil then
            [⟨i + 1, ("Unknown sigil '".data) ++ sigil ++ ("'. Valid: ".data)
              ++ joinCommaSp (stableSort strLexLe (SIGILS.map (·.1))),
              "error".data⟩]
          else []
        let e2 : List VErr :=
          if bid = [] then [⟨i + 1, "Block ID is empty".data, "error".data⟩]
          else if ids.contains bid then
            [⟨i + 1, ("Duplicate block ID '".data) ++ bid ++ ("'".data),
              "warning".data⟩]
          else []
        let ids' := bid :: ids
        if sigil = "B".data then
          match rest with
          | lnext :: rest2 =>
            if pstrip lnext = HEREDOC_OPEN then
              e1 ++ e2 ++ validateBlocks fuel rest2 (i + 2) ids' true (i + 1)
            else
              e1 ++ e2 ++
                [⟨i + 1, "@B block must be followed by '<<'".data, "error".data⟩]
                ++ validateBlocks fuel rest (i + 1) ids' false hStart
          | [] =>
            e1 ++ e2 ++
              [⟨i + 1, "@B block must be followed by '<<'".data, "error".data⟩]
              ++ validateBlocks fuel rest (i + 1) ids' false hStart
        else e1 ++ e2 ++ validateBlocks fuel rest (i + 1) ids' false hStart
      | none => validateBlocks fuel rest (i + 1) ids false hStart

/-- `validate`: ordered list of issues (empty = structurally flawless). -/
def validate (text : Str) : List VErr :=
  match splitLines text with
  | [] => [⟨1, "Empty document".data, "error".data⟩]
  | l0 :: rest0 =>
    if pstrip l0 ≠ FORMAT_HEADER then
      [⟨1, ("Expected '".data) ++ FORMAT_HEADER ++ ("', got '".data)
        ++ pstrip l0 ++ ("'".data), "error".data⟩]
    else
      match rest0 with
      | [] => [⟨2, "Missing metadata line".data, "error".data⟩]
      | l1 :: rest1 =>
        let metaLine := pstrip l1
        let metaErrs : List VErr :=
          if ¬ METADATA_PREFIX.isPrefixOf metaLine then
            [⟨2, "Expected metadata starting with 'M|'".data, "error".data⟩]
          else
            let fields := splitOnChar '|' (metaLine.drop METADATA_PREFIX.length)
            if fields.length < 4 then
              [⟨2, ("Metadata needs 4 pipe-separated fields, got ".data)
                ++ natToStr fields.length, "error".data⟩]
            else []
        match rest1 with
        | [] => metaErrs ++ [⟨3, "Missing '---' separator".data, "error".data⟩]
        | l2 :: rest2 =>
          let sepErrs : List VErr :=
            if pstrip l2 ≠ SECTION_SEPARATOR then
              [⟨3, ("Expected '---', got '".data) ++ pstrip l2 ++ ("'".data),
                "error".data⟩]
            else []
          metaErrs ++ sepErrs ++ validateBlocks rest2.length rest2 3 [] false 0

/-- `is_valid`: no error-severity issue. -/
def is_valid (text : Str) : Bool :=
  !(validate text).any (fun e => e.severity = "error".data)

/-- The number of error-severity entries `validate` reports. -/
def errorCount (text : Str) : Nat :=
  ((validate text).filter (fun e => e.severity = "error".data)).length

/-- The number of warning-severity entries `validate` reports. -/
def warningCount (text : Str) : Nat :=
  ((validate text).filter (fun e => e.severity = "warning".data)).length

/- ------------------------------------------------------------------ -/
/- Generic lemmas about the string primitives                          -/
/- ------------------------------------------------------------------ -/

/-- Equality of `Except` values is decidable (both components are). -/
instance {ε α : Type} [DecidableEq ε] [DecidableEq α] : DecidableEq (Except ε α) := fun a b =>
  match a, b with
  | .error x, .error y =>
    if h : x = y then .isTrue (by rw [h]) else .isFalse (by simp [h])
  | .ok x, .ok y =>
    if h : x = y then .isTrue (by rw [h]) else .isFalse (by simp [h])
  | .error _, .ok _ => .isFalse (by simp)
  | .ok _, .error _ => .isFalse (by simp)

theorem dropWhile_len_le (p : α → Bool) (l : List α) :
    (l.dropWhile p).length ≤ l.length := by
  induction l with
  | nil => simp
  | cons c t ih =>
    by_cases h : p c
    · simp [List.dropWhile_cons_of_pos h]; omega
    · simp [List.dropWhile_cons_of_neg h]

theorem dropWhile_eq_self_of_len (p : α → Bool) (l : List α)
    (h : (l.dropWhile p).length = l.length) : l.dropWhile p = l := by
  cases l with
  | nil => simp
  | cons c t =>
    by_cases hp : p c
    · exfalso
      rw [List.dropWhile_cons_of_pos hp] at h
      have := dropWhile_len_le p t
      simp at h
      omega
    · exact List.dropWhile_cons_of_neg hp

theorem prstrip_len_le (s : Str) : (prstrip s).length ≤ s.length := by
  unfold prstrip
  calc ((s.reverse.dropWhile isPySpace).reverse).length
      = (s.reverse.dropWhile isPySpace).length := by simp
    _ ≤ s.reverse.length := dropWhile_len_le _ _
    _ = s.length := by simp

theorem plstrip_len_le (s : Str) : (plstrip s).length ≤ s.length :=
  dropWhile_len_le _ _

theorem prstrip_eq_self_of_len (s : Str) (h : (prstrip s).length = s.length) :
    prstrip s = s := by
  unfold prstrip at *
  have h2 : (s.reverse.dropWhile isPySpace).length = s.reverse.length := by
    simp at h ⊢; omega
  rw [dropWhile_eq_self_of_len _ _ h2, List.reverse_reverse]

/-- A string equal to its own `strip` is equal to its own `rstrip` and
`lstrip`. -/
theorem strip_parts_of_pstrip_eq (s : Str) (h : pstrip s = s) :
    prstrip s = s ∧ plstrip s = s := by
  unfold pstrip at h
  have hlen : (plstrip (prstrip s)).length = s.length := by rw [h]
  have h1 : (plstrip (prstrip s)).length ≤ (prstrip s).length := plstrip_len_le _
  have h2 : (prstrip s).length ≤ s.length := prstrip_len_le s
  have hr : prstrip s = s := prstrip_eq_self_of_len s (by omega)
  refine ⟨hr, ?_⟩
  rw [hr] at h
  exact h

/-- The first character of a string that equals its own `lstrip` is not
whitespace. -/
theorem head_not_space_of_plstrip (c : Char) (t : Str)
    (h : plstrip (c :: t) = c :: t) : isPySpace c = false := by
  by_contra hc
  have hc' : isPySpace c = true := by
    cases hcc : isPySpace c with
    | false => exact absurd hcc hc
    | true => rfl
  unfold plstrip at h
  rw [List.dropWhile_cons_of_pos hc'] at h
  have := dropWhile_len_le isPySpace t
  have := congrArg List.length h
  simp at this
  omega

/-- A string whose first and last characters are not whitespace equals its
own `strip`. -/
theorem pstrip_eq_self_of_edges (s : Str)
    (h1 : ∀ c, s.head? = some c → isPySpace c = false)
    (h2 : ∀ c, s.getLast? = some c → isPySpace c = false) : pstrip s = s := by
  have hr : prstrip s = s := by
    unfold prstrip
    cases hrev : s.reverse with
    | nil => simp [List.reverse_eq_nil_iff.mp hrev]
    | cons c t =>
      have : s.getLast? = some c := by
        rw [List.getLast?_eq_head?_reverse, hrev]; rfl
      rw [List.dropWhile_cons_of_neg (by simp [h2 c this])]
      rw [← hrev, List.reverse_reverse]
  unfold pstrip
  rw [hr]
  unfold plstrip
  cases s with
  | nil => simp
  | cons c t =>
    rw [List.dropWhile_cons_of_neg (by simp [h1 c rfl])]

/-- Edge characters of a strip-stable nonempty string are not whitespace. -/
theorem edges_of_pstrip_eq (s : Str) (h : pstrip s = s) :
    (∀ c, s.head? = some c → isPySpace c = false) ∧
    (∀ c, s.getLast? = some c → isPySpace c = false) := by
  obtain ⟨hr, hl⟩ := strip_parts_of_pstrip_eq s h
  constructor
  · intro c hc
    cases s with
    | nil => simp at hc
    | cons a t =>
      simp at hc
      have := head_not_space_of_plstrip a t hl
      rwa [hc] at this
  · intro c hc
    rw [List.getLast?_eq_head?_reverse] at hc
    cases hrev : s.reverse with
    | nil => rw [hrev] at hc; simp at hc
    | cons a t =>
      rw [hrev] at hc
      simp at hc
      have hdw : List.dropWhile isPySpace (a :: t) = a :: t := by
        unfold prstrip at hr
        have h2 := congrArg List.reverse hr
        rw [List.reverse_reverse] at h2
        rw [hrev] at h2
        exact h2
      have := head_not_space_of_plstrip a t hdw
      rwa [hc] at this

/- ------------------------------------------------------------------ -/
/- Round-trip machinery: well-formedness and layout lemmas             -/
/- ------------------------------------------------------------------ -/

/-- No character of `s` is a `splitlines` boundary. -/
def lineBreakFree (s : Str) : Bool := s.all (fun c => !isPyLineBreak c)

/-- No `'|'` occurs in `s` (so the metadata field survives the pipe split). -/
def pipeFree (s : Str) : Bool := s.all (fun c => !(c = '|'))

/-- Well-formedness of metadata fields for an exact round trip: each field is
free of line breaks and pipes and carries no leading/trailing whitespace. -/
def metadataWF (m : Metadata) : Bool :=
  [m.doc_id, m.title, m.source, m.timestamp].all
    (fun f => lineBreakFree f && pipeFree f && (pstrip f == f))

/-- Well-formedness of a non-heredoc block's content lines: no line breaks,
no line that looks like a block header once stripped, and the first and last
lines are not blank (the parser drops leading and trailing blank lines). -/
def contentLinesWF (lines : List Str) : Bool :=
  lines.all (fun l => lineBreakFree l && (blockHeaderMatch (pstrip l)).isNone) &&
  (match lines.head? with | none => true | some h => !(pstrip h == [])) &&
  (match lines.getLast? with | none => true | some z => !(pstrip z == []))

/-- Well-formedness of a heredoc block's content lines: no line breaks and no
line that strips to the close marker. -/
def heredocLinesWF (lines : List Str) : Bool :=
  lines.all (fun l => lineBreakFree l && !(pstrip l == HEREDOC_CLOSE))

/-- Well-formedness of a block for an exact round trip. -/
def blockWF (b : Block) : Bool :=
  dictHasKey SIGILS b.sigil &&
  (b.is_heredoc == (b.sigil == "B".data)) &&
  lineBreakFree b.block_id && (pstrip b.block_id == b.block_id) &&
  !(b.block_id == ([] : Str)) &&
  (if b.is_heredoc then heredocLinesWF b.lines else contentLinesWF b.lines)

/-- Well-formedness of a whole document for an exact round trip. -/
def docWF (d : CPFDocument) : Bool :=
  (d.version == VERSION) && metadataWF d.metadata && d.blocks.all blockWF

/-- A block with every content line right-stripped (what the parser returns). -/
def rstripBlock (b : Block) : Block := { b with lines := b.lines.map prstrip }

/-- The formatted line list starting at a block header (the blank separator
line of each following block included). -/
def chunkLines : List Block → List Str
  | [] => []
  | b :: rest =>
    headerLineOf b :: blockContentOut b ++
      (match rest with | [] => [] | _ :: _ => ([] : Str) :: chunkLines rest)

/-- The separator-plus-chunk lines contributed by the blocks after the
current one: empty when there are none, else a blank line then their chunk. -/
def chunkSep (bs : List Block) : List Str :=
  match bs with
  | [] => []
  | _ :: _ => ([] : Str) :: chunkLines bs

theorem chunkLines_cons (b : Block) (rest : List Block) :
    chunkLines (b :: rest) = headerLineOf b :: (blockContentOut b ++ chunkSep rest) := by
  cases rest <;> rfl

theorem flatten_blockOut_eq_chunk (bs : List Block) :
    (bs.map blockOutLines).flatten =
      (match bs with | [] => [] | _ :: _ => ([] : Str) :: chunkLines bs) := by
  induction bs with
  | nil => rfl
  | cons b rest ih =>
    cases rest with
    | nil => simp [chunkLines, blockOutLines]
    | cons b2 rest2 =>
      have ih2 : (List.map blockOutLines (b2 :: rest2)).flatten
          = ([] : Str) :: chunkLines (b2 :: rest2) := ih
      show blockOutLines b ++ (List.map blockOutLines (b2 :: rest2)).flatten = _
      rw [ih2]
      simp [blockOutLines, chunkLines]

theorem splitLinesAux_line (l : Str) (t : Str) :
    ∀ cur, lineBreakFree l = true →
      splitLinesAux (l ++ '\n' :: t) cur false =
        (cur.reverse ++ l) :: splitLinesAux t [] false := by
  induction l with
  | nil =>
    intro cur _
    simp [splitLinesAux, isPyLineBreak]
  | cons c l' ih =>
    intro cur hl
    simp only [lineBreakFree, List.all_cons, Bool.and_eq_true] at hl
    obtain ⟨hc, hl'⟩ := hl
    have hcr : ¬ (c = '\r') := by
      intro hcc
      rw [hcc] at hc
      simp [isPyLineBreak] at hc
    have hbr : isPyLineBreak c = false := by
      cases hb : isPyLineBreak c with
      | false => rfl
      | true => rw [hb] at hc; simp at hc
    show splitLinesAux (c :: (l' ++ '\n' :: t)) cur false = _
    rw [splitLinesAux]
    simp only [Bool.false_and, Bool.false_eq_true, if_false, if_neg hcr, hbr]
    rw [ih (c :: cur) (by exact hl')]
    simp

/-- `splitlines` of `"\n".join(lines) + "\n"` recovers the lines, provided
each line is free of line-break characters. -/
theorem splitLines_joinNewline (L : List Str) (hL : ∀ l ∈ L, lineBreakFree l = true)
    (hne : L ≠ []) : splitLines (joinNewline L ++ ['\n']) = L := by
  induction L with
  | nil => exact absurd rfl hne
  | cons l t ih =>
    cases t with
    | nil =>
      show splitLines (joinNewline [l] ++ ['\n']) = [l]
      unfold splitLines
      have : joinNewline [l] ++ ['\n'] = l ++ '\n' :: [] := by simp [joinNewline]
      rw [this, splitLinesAux_line l [] [] (hL l (by simp))]
      rfl
    | cons l2 t2 =>
      show splitLines (joinNewline (l :: l2 :: t2) ++ ['\n']) = l :: l2 :: t2
      have hj : joinNewline (l :: l2 :: t2) = l ++ '\n' :: joinNewline (l2 :: t2) := by
        rfl
      unfold splitLines
      rw [hj]
      have : (l ++ '\n' :: joinNewline (l2 :: t2)) ++ ['\n']
          = l ++ '\n' :: (joinNewline (l2 :: t2) ++ ['\n']) := by simp
      rw [this, splitLinesAux_line l _ [] (hL l (by simp))]
      simp only [List.reverse_nil, List.nil_append, List.cons.injEq, true_and]
      have := ih (fun x hx => hL x (by simp [hx])) (by simp)
      unfold splitLines at this
      exact this

theorem dropContent_split (content rest : List Str)
    (hc : ∀ l ∈ content, blockHeaderMatch (pstrip l) = none)
    (hr : rest = [] ∨ ∃ r t, rest = r :: t ∧ (blockHeaderMatch (pstrip r)).isSome) :
    dropContent (content ++ rest) = (content, rest) := by
  induction content with
  | nil =>
    rcases hr with h | ⟨r, t, hrt, hsome⟩
    · subst h; rfl
    · subst hrt
      simp [dropContent, hsome]
  | cons l c' ih =>
    have hnone := hc l (by simp)
    have hfalse : (blockHeaderMatch (pstrip l)).isSome = false := by rw [hnone]; rfl
    have ihh := ih (fun x hx => hc x (by simp [hx]))
    simp [dropContent, hfalse, ihh]

theorem dropWhile_idem (p : α → Bool) (l : List α) :
    (l.dropWhile p).dropWhile p = l.dropWhile p := by
  induction l with
  | nil => simp
  | cons c t ih =>
    by_cases h : p c
    · simp [List.dropWhile_cons_of_pos h, ih]
    · simp [List.dropWhile_cons_of_neg h]

theorem prstrip_idem (s : Str) : prstrip (prstrip s) = prstrip s := by
  unfold prstrip
  rw [List.reverse_reverse, dropWhile_idem]

theorem pstrip_prstrip (s : Str) : pstrip (prstrip s) = pstrip s := by
  unfold pstrip
  rw [prstrip_idem]

theorem pstrip_empty_iff_prstrip (l : Str) :
    (pstrip (prstrip l) = []) = (pstrip l = []) := by rw [pstrip_prstrip]

/-- Dropping trailing blank lines (after right-stripping) keeps every line
when the last line is not blank. -/
theorem dropTrailing_keeps (lines : List Str) (z : Str)
    (hz : lines.getLast? = some z) (hzne : ¬ pstrip z = []) :
    ((lines.map prstrip).reverse.dropWhile (fun l => pstrip l = [])).reverse
      = lines.map prstrip := by
  cases hrr : (lines.map prstrip).reverse with
  | nil =>
    have : lines.map prstrip = [] := by
      have := congrArg List.reverse hrr
      simpa using this
    have : lines = [] := by simpa using this
    rw [this] at hz
    simp at hz
  | cons a u =>
    have hhead : (lines.map prstrip).reverse.head? = some (prstrip z) := by
      rw [List.head?_reverse, List.getLast?_map, hz]
      rfl
    rw [hrr] at hhead
    simp only [List.head?_cons, Option.some.injEq] at hhead
    have hkeep : ¬ (pstrip a = []) := by
      rw [hhead, pstrip_prstrip]
      exact hzne
    rw [List.dropWhile_cons_of_neg (by simpa using hkeep)]
    rw [← hrr, List.reverse_reverse]

/-- The parser's on-the-fly content clean-up over a block's formatted lines
followed by the blank separator line: it right-strips the lines. -/
theorem cleanContent_append_blank (lines : List Str)
    (h : contentLinesWF lines = true) :
    cleanContent (lines ++ [[]]) = lines.map prstrip := by
  unfold contentLinesWF at h
  simp only [Bool.and_eq_true] at h
  obtain ⟨⟨_, hhead⟩, hlast⟩ := h
  cases lines with
  | nil => rfl
  | cons l t =>
    have hl : ¬ (pstrip l = []) := by
      simp only [List.head?_cons] at hhead
      simpa using hhead
    obtain ⟨z, hzeq⟩ : ∃ z, (l :: t).getLast? = some z := by
      cases hg : (l :: t).getLast? with
      | none => simp at hg
      | some z => exact ⟨z, rfl⟩
    have hz : ¬ (pstrip z = []) := by
      rw [hzeq] at hlast
      simpa using hlast
    unfold cleanContent
    rw [show ((l :: t) ++ [([] : Str)]) = l :: (t ++ [[]]) from by simp]
    rw [List.dropWhile_cons_of_neg (by simpa using hl)]
    rw [show List.map prstrip (l :: (t ++ [[]]))
        = (l :: t).map prstrip ++ [([] : Str)] from by simp [prstrip]]
    rw [List.reverse_append]
    rw [show ([([] : Str)].reverse ++ ((l :: t).map prstrip).reverse)
        = ([] : Str) :: ((l :: t).map prstrip).reverse from by simp]
    rw [List.dropWhile_cons_of_pos (by simp [pstrip, plstrip, prstrip])]
    exact dropTrailing_keeps (l :: t) z hzeq hz

/-- Same as `cleanContent_append_blank` for the final block (no trailing
blank separator line). -/
theorem cleanContent_plain (lines : List Str)
    (h : contentLinesWF lines = true) :
    cleanContent lines = lines.map prstrip := by
  unfold contentLinesWF at h
  simp only [Bool.and_eq_true] at h
  obtain ⟨⟨_, hhead⟩, hlast⟩ := h
  cases lines with
  | nil => rfl
  | cons l t =>
    have hl : ¬ (pstrip l = []) := by
      simp only [List.head?_cons] at hhead
      simpa using hhead
    obtain ⟨z, hzeq⟩ : ∃ z, (l :: t).getLast? = some z := by
      cases hg : (l :: t).getLast? with
      | none => simp at hg
      | some z => exact ⟨z, rfl⟩
    have hz : ¬ (pstrip z = []) := by
      rw [hzeq] at hlast
      simpa using hlast
    unfold cleanContent
    rw [List.dropWhile_cons_of_neg (by simpa using hl)]
    exact dropTrailing_keeps (l :: t) z hzeq hz

/-- Collecting heredoc content over formatted lines: stops exactly at the
close marker, right-stripping the content. -/
theorem heredocCollect_split (openIdx : Nat) (lines rest : List Str) (i : Nat)
    (h : heredocLinesWF lines = true) :
    heredocCollect openIdx (lines ++ HEREDOC_CLOSE :: rest) i
      = .ok (lines.map prstrip, rest, i + lines.length + 1) := by
  induction lines generalizing i with
  | nil =>
    show heredocCollect openIdx (HEREDOC_CLOSE :: rest) i = _
    rw [heredocCollect]
    rw [if_pos (by decide)]
    rfl
  | cons l t ih =>
    simp only [heredocLinesWF, List.all_cons, Bool.and_eq_true] at h
    obtain ⟨⟨_, hne⟩, ht⟩ := h
    have hne' : ¬ (pstrip l = HEREDOC_CLOSE) := by simpa using hne
    show heredocCollect openIdx (l :: (t ++ HEREDOC_CLOSE :: rest)) i = _
    rw [heredocCollect, if_neg hne', ih (i + 1) (by simpa [heredocLinesWF] using ht)]
    simp [Except.map]
    omega

/-- Every sigil key of `SIGILS` is a single uppercase letter. -/
theorem sigil_key_shape (s : Str) (h : dictHasKey SIGILS s = true) :
    ∃ c, s = [c] ∧ ('A' ≤ c && c ≤ 'Z') = true := by
  simp only [dictHasKey, SIGILS, List.any_cons, List.any_nil, Bool.or_eq_true,
    Bool.or_false, decide_eq_true_eq] at h
  rcases h with h | h | h | h | h | h | h | h | h
  all_goals rw [← h]
  all_goals exact ⟨_, rfl, by decide⟩

/-- A break-free string has no `'\n'`, so `takeWhile (· ≠ '\n')` keeps it. -/
theorem takeWhile_ne_nl_of_breakFree (s : Str) (h : lineBreakFree s = true) :
    s.takeWhile (fun x => x ≠ '\n') = s := by
  induction s with
  | nil => rfl
  | cons a t ih =>
    simp only [lineBreakFree, List.all_cons, Bool.and_eq_true] at h
    obtain ⟨ha, ht⟩ := h
    have hne : ¬ (a = '\n') := by
      intro haa
      rw [haa] at ha
      simp [isPyLineBreak] at ha
    simp only [List.takeWhile_cons]
    rw [if_pos (by simpa using hne), ih (by simpa [lineBreakFree] using ht)]

/-- A break-free string has no `'\n'`, so `dropWhile (· ≠ '\n')` drops it
entirely. -/
theorem dropWhile_ne_nl_of_breakFree (s : Str) (h : lineBreakFree s = true) :
    s.dropWhile (fun x => x ≠ '\n') = [] := by
  induction s with
  | nil => rfl
  | cons a t ih =>
    simp only [lineBreakFree, List.all_cons, Bool.and_eq_true] at h
    obtain ⟨ha, ht⟩ := h
    have hne : ¬ (a = '\n') := by
      intro haa
      rw [haa] at ha
      simp [isPyLineBreak] at ha
    rw [List.dropWhile_cons_of_pos (by simpa using hne)]
    exact ih (by simpa [lineBreakFree] using ht)

/-- The formatted header line of a well-formed block strips to itself and
matches the block-header pattern, capturing the sigil letter and the id. -/
theorem headerLine_facts (b : Block) (hkey : dictHasKey SIGILS b.sigil = true)
    (hbrk : lineBreakFree b.block_id = true)
    (hstrip : pstrip b.block_id = b.block_id)
    (hne : b.block_id ≠ []) :
    ∃ c, b.sigil = [c] ∧
      pstrip (headerLineOf b) = headerLineOf b ∧
      blockHeaderMatch (headerLineOf b) = some (c, b.block_id) := by
  obtain ⟨c, hc, hcu⟩ := sigil_key_shape b.sigil hkey
  refine ⟨c, hc, ?_, ?_⟩
  · apply pstrip_eq_self_of_edges
    · intro a ha
      simp [headerLineOf] at ha
      rw [← ha]
      decide
    · intro a ha
      obtain ⟨z, hzget⟩ : ∃ z, b.block_id.getLast? = some z := by
        cases hg : b.block_id.getLast? with
        | none => exact absurd (List.getLast?_eq_none_iff.mp hg) hne
        | some z => exact ⟨z, rfl⟩
      have hlast : (headerLineOf b).getLast? = b.block_id.getLast? := by
        show (('@' :: b.sigil ++ ':' :: b.block_id)).getLast? = _
        rw [show ('@' :: b.sigil ++ ':' :: b.block_id)
            = ('@' :: b.sigil) ++ ([':'] ++ b.block_id) from by simp]
        rw [List.getLast?_append, List.getLast?_append, hzget]
        rfl
      rw [hlast] at ha
      exact (edges_of_pstrip_eq b.block_id hstrip).2 a ha
  · show blockHeaderMatch ('@' :: b.sigil ++ ':' :: b.block_id) = _
    rw [hc]
    show blockHeaderMatch ('@' :: c :: ':' :: b.block_id) = _
    simp only [blockHeaderMatch]
    rw [if_pos hcu]
    rw [takeWhile_ne_nl_of_breakFree b.block_id hbrk,
      dropWhile_ne_nl_of_breakFree b.block_id hbrk]
    rw [if_pos (by simp [hne])]

/-- Core round-trip lemma: the parser's block loop, run over the formatted
lines of well-formed blocks (starting at the first header line), returns the
blocks with their content lines right-stripped. -/
theorem parseBlocks_chunk (bs : List Block) :
    ∀ fuel i, bs.all blockWF = true → (chunkLines bs).length ≤ fuel →
      parseBlocks fuel (chunkLines bs) i = .ok (bs.map rstripBlock) := by
  induction bs with
  | nil =>
    intro fuel i _ _
    cases fuel <;> rfl
  | cons b rest ih =>
    intro fuel i hwf hfuel
    simp only [List.all_cons, Bool.and_eq_true] at hwf
    obtain ⟨hb, hrest⟩ := hwf
    unfold blockWF at hb
    simp only [Bool.and_eq_true] at hb
    obtain ⟨⟨⟨⟨⟨hkey, hhd⟩, hbrk⟩, hstrip⟩, hne⟩, hcontent⟩ := hb
    have hstrip' : pstrip b.block_id = b.block_id := by simpa using hstrip
    have hne' : b.block_id ≠ [] := by simpa using hne
    obtain ⟨c, hc, hself, hmatch⟩ := headerLine_facts b hkey hbrk hstrip' hne'
    rw [chunkLines_cons] at hfuel ⊢
    cases fuel with
    | zero => simp at hfuel
    | succ f =>
      rw [parseBlocks]
      have hnotblank : ¬ (pstrip (headerLineOf b) = []) := by
        rw [hself]
        simp [headerLineOf]
      rw [if_neg hnotblank]
      simp only [hself, hmatch]
      rw [if_pos (by rw [← hc]; exact hkey)]
      rw [hstrip']
      by_cases hB : ([c] : Str) = "B".data
      · -- heredoc block
        rw [if_pos hB]
        have hisH : b.is_heredoc = true := by
          have hbeq : (b.sigil == "B".data) = true := by
            rw [hc, hB]
            simp
          rw [hbeq] at hhd
          simpa using hhd
        have hcout : blockContentOut b = HEREDOC_OPEN :: (b.lines ++ [HEREDOC_CLOSE]) := by
          simp [blockContentOut, hisH]
        have hHwf : heredocLinesWF b.lines = true := by
          rw [hisH] at hcontent
          simpa using hcontent
        rw [hcout]
        have hreassoc : (HEREDOC_OPEN :: (b.lines ++ [HEREDOC_CLOSE])) ++ chunkSep rest
            = HEREDOC_OPEN :: (b.lines ++ HEREDOC_CLOSE :: chunkSep rest) := by
          simp
        rw [hreassoc]
        rw [show parseHeredoc (HEREDOC_OPEN ::
              (b.lines ++ HEREDOC_CLOSE :: chunkSep rest)) (i + 1)
            = heredocCollect (i + 1)
              (b.lines ++ HEREDOC_CLOSE :: chunkSep rest) (i + 2)
          from by rw [parseHeredoc]; rw [if_pos (by decide)]]
        rw [heredocCollect_split (i + 1) b.lines _ (i + 2) hHwf]
        cases rest with
        | nil =>
          show Except.map _ (parseBlocks f (chunkSep []) _) = _
          have hnil : parseBlocks f (chunkSep []) (i + 2 + b.lines.length + 1) = .ok [] := by
            cases f <;> rfl
          rw [hnil]
          simp [Except.map, rstripBlock, hc, hisH]
        | cons r t =>
          show Except.map _ (parseBlocks f (chunkSep (r :: t)) _) = _
          cases f with
          | zero =>
            exfalso
            simp only [hcout, chunkSep, List.length_cons, List.length_append] at hfuel
            omega
          | succ f2 =>
            show Except.map _ (parseBlocks (f2 + 1) (([] : Str) :: chunkLines (r :: t)) _) = _
            rw [parseBlocks]
            rw [if_pos (by rfl)]
            rw [ih f2 _ hrest (by
              simp only [hcout, chunkSep, List.length_cons, List.length_append] at hfuel
              omega)]
            simp [Except.map, rstripBlock, hc, hisH]
      · -- regular content block
        rw [if_neg hB]
        have hisH : b.is_heredoc = false := by
          have hbeq : (b.sigil == "B".data) = false := by
            rw [hc]
            simpa using hB
          rw [hbeq] at hhd
          simpa using hhd
        have hcout : blockContentOut b = b.lines := by
          simp [blockContentOut, hisH]
        have hCwf : contentLinesWF b.lines = true := by
          rw [hisH] at hcontent
          simpa using hcontent
        have hCnone : ∀ l ∈ b.lines, blockHeaderMatch (pstrip l) = none := by
          intro l hl
          unfold contentLinesWF at hCwf
          simp only [Bool.and_eq_true, List.all_eq_true] at hCwf
          have := hCwf.1.1 l hl
          simp only [Bool.and_eq_true, Option.isNone_iff_eq_none] at this
          exact this.2
        rw [hcout]
        cases rest with
        | nil =>
          have hdc : dropContent (b.lines ++ chunkSep []) = (b.lines, []) := by
            show dropContent (b.lines ++ []) = _
            rw [List.append_nil]
            have := dropContent_split b.lines [] hCnone (Or.inl rfl)
            simpa using this
          show (parseBlocks f (dropContent (b.lines ++ chunkSep [])).2 _).map _ = _
          rw [hdc]
          have hnil : ∀ j, parseBlocks f ([] : List Str) j = .ok [] := by
            intro j
            cases f <;> rfl
          rw [hnil]
          simp [Except.map, rstripBlock, hc, hisH,
            cleanContent_plain b.lines hCwf]
        | cons r t =>
          have hrwf : blockWF r = true := by
            simp only [List.all_cons, Bool.and_eq_true] at hrest
            exact hrest.1
          have hrfacts := hrwf
          unfold blockWF at hrfacts
          simp only [Bool.and_eq_true] at hrfacts
          obtain ⟨⟨⟨⟨⟨hrkey, _⟩, hrbrk⟩, hrstrip⟩, hrne⟩, _⟩ := hrfacts
          obtain ⟨c2, _, hself2, hmatch2⟩ := headerLine_facts r hrkey hrbrk
            (by simpa using hrstrip) (by simpa using hrne)
          have hdc : dropContent (b.lines ++ chunkSep (r :: t))
              = (b.lines ++ [([] : Str)], chunkLines (r :: t)) := by
            show dropContent (b.lines ++ ([] : Str) :: chunkLines (r :: t)) = _
            rw [show b.lines ++ ([] : Str) :: chunkLines (r :: t)
                = (b.lines ++ [([] : Str)]) ++ chunkLines (r :: t) from by simp]
            apply dropContent_split
            · intro l hl
              rcases List.mem_append.mp hl with h1 | h1
              · exact hCnone l h1
              · simp at h1
                rw [h1]
                rfl
            · right
              refine ⟨headerLineOf r, _, chunkLines_cons r t, ?_⟩
              rw [hself2, hmatch2]
              rfl
          show (parseBlocks f (dropContent (b.lines ++ chunkSep (r :: t))).2 _).map _ = _
          rw [hdc]
          cases f with
          | zero =>
            exfalso
            simp only [hcout, chunkSep, List.length_cons, List.length_append] at hfuel
            omega
          | succ f2 =>
            rw [ih (f2 + 1) _ hrest (by
              simp only [hcout, chunkSep, List.length_cons, List.length_append] at hfuel
              omega)]
            simp [Except.map, rstripBlock, hc, hisH,
              cleanContent_append_blank b.lines hCwf]

/-- Uppercase ASCII letters are not line-break characters. -/
theorem upper_not_break (c : Char) (h : ('A' ≤ c && c ≤ 'Z') = true) :
    isPyLineBreak c = false := by
  cases hb : isPyLineBreak c with
  | false => rfl
  | true =>
    exfalso
    simp only [isPyLineBreak, Bool.or_eq_true, decide_eq_true_eq] at hb
    rcases hb with ((((((((h1 | h1) | h1) | h1) | h1) | h1) | h1) | h1) | h1) | h1 <;>
      (subst h1; exact absurd h (by decide))

theorem lineBreakFree_append (a b : Str) :
    lineBreakFree (a ++ b) = (lineBreakFree a && lineBreakFree b) := by
  simp [lineBreakFree, List.all_append]

theorem lineBreakFree_cons (c : Char) (t : Str) :
    lineBreakFree (c :: t) = (!isPyLineBreak c && lineBreakFree t) := by
  simp [lineBreakFree]

/-- Splitting on `'|'` peels off a pipe-free first field. -/
theorem splitOnChar_pipe_append (a rest : Str) (h : pipeFree a = true) :
    splitOnChar '|' (a ++ '|' :: rest) = a :: splitOnChar '|' rest := by
  induction a with
  | nil =>
    show splitOnChar '|' ('|' :: rest) = _
    rw [splitOnChar]
    simp
  | cons c a' ih =>
    simp only [pipeFree, List.all_cons, Bool.and_eq_true] at h
    obtain ⟨hc, ha'⟩ := h
    have hcne : ¬ (c = '|') := by simpa using hc
    show splitOnChar '|' (c :: (a' ++ '|' :: rest)) = _
    rw [splitOnChar]
    simp only [if_neg hcne]
    rw [ih (by simpa [pipeFree] using ha')]

/-- Splitting a pipe-free string on `'|'` yields the single field. -/
theorem splitOnChar_pipe_free (a : Str) (h : pipeFree a = true) :
    splitOnChar '|' a = [a] := by
  induction a with
  | nil => rfl
  | cons c a' ih =>
    simp only [pipeFree, List.all_cons, Bool.and_eq_true] at h
    obtain ⟨hc, ha'⟩ := h
    have hcne : ¬ (c = '|') := by simpa using hc
    rw [splitOnChar]
    simp only [if_neg hcne]
    rw [ih (by simpa [pipeFree] using ha')]

/-- The metadata line the formatter writes. -/
def metaLineOf (m : Metadata) : Str :=
  METADATA_PREFIX ++ m.doc_id ++ '|' :: m.title ++ '|' :: m.source ++ '|' :: m.timestamp

theorem formatLines_meta (d : CPFDocument) :
    formatLines d = FORMAT_HEADER :: metaLineOf d.metadata :: SECTION_SEPARATOR ::
      (d.blocks.map blockOutLines).flatten := rfl

/-- The last character of `a ++ '|' :: ts` is `'|'` or the last of `ts`,
hence not whitespace when `ts` is strip-stable. -/
theorem getLast_pipe_tail (a ts : Str) (hts : pstrip ts = ts) :
    ∀ c, (a ++ '|' :: ts).getLast? = some c → isPySpace c = false := by
  intro c hc
  cases hts0 : ts with
  | nil =>
    rw [hts0] at hc
    rw [show (a ++ ['|']) = a ++ ['|'] from rfl] at hc
    rw [List.getLast?_append] at hc
    simp at hc
    rw [← hc]
    decide
  | cons z zs =>
    rw [show (a ++ '|' :: ts) = (a ++ ['|']) ++ ts from by simp] at hc
    rw [List.getLast?_append] at hc
    have : ts.getLast? ≠ none := by
      rw [hts0]
      simp
    cases hg : ts.getLast? with
    | none => exact absurd hg this
    | some z2 =>
      rw [hg] at hc
      simp at hc
      have := (edges_of_pstrip_eq ts hts).2 z2 hg
      rwa [hc] at this

/-- Field-wise reading of `metadataWF`. -/
theorem metadataWF_fields (m : Metadata) (h : metadataWF m = true) :
    ∀ f ∈ [m.doc_id, m.title, m.source, m.timestamp],
      lineBreakFree f = true ∧ pipeFree f = true ∧ pstrip f = f := by
  intro f hf
  unfold metadataWF at h
  rw [List.all_eq_true] at h
  have hff := h f hf
  simp only [Bool.and_eq_true, beq_iff_eq] at hff
  exact ⟨hff.1.1, hff.1.2, hff.2⟩

/-- The formatted metadata line of well-formed metadata strips to itself. -/
theorem metaLine_strip (m : Metadata) (h : metadataWF m = true) :
    pstrip (metaLineOf m) = metaLineOf m := by
  have hts : pstrip m.timestamp = m.timestamp :=
    (metadataWF_fields m h m.timestamp (by simp)).2.2
  apply pstrip_eq_self_of_edges
  · intro c hc
    simp [metaLineOf, METADATA_PREFIX] at hc
    rw [← hc]
    decide
  · intro c hc
    have : metaLineOf m
        = (METADATA_PREFIX ++ m.doc_id ++ '|' :: m.title ++ '|' :: m.source)
          ++ '|' :: m.timestamp := by
      simp [metaLineOf]
    rw [this] at hc
    exact getLast_pipe_tail _ m.timestamp hts c hc

/-- Every line the formatter emits for a well-formed document is free of
line-break characters. -/
theorem formatLines_breakFree (d : CPFDocument) (h : docWF d = true) :
    ∀ l ∈ formatLines d, lineBreakFree l = true := by
  unfold docWF at h
  simp only [Bool.and_eq_true] at h
  obtain ⟨⟨_, hm⟩, hbs⟩ := h
  have h1 := (metadataWF_fields d.metadata hm d.metadata.doc_id (by simp)).1
  have h2 := (metadataWF_fields d.metadata hm d.metadata.title (by simp)).1
  have h3 := (metadataWF_fields d.metadata hm d.metadata.source (by simp)).1
  have h4 := (metadataWF_fields d.metadata hm d.metadata.timestamp (by simp)).1
  intro l hl
  rw [formatLines_meta] at hl
  simp only [List.mem_cons] at hl
  rcases hl with hl | hl | hl | hl
  · subst hl; decide
  · subst hl
    have hpre : lineBreakFree METADATA_PREFIX = true := by decide
    have hbar : (!isPyLineBreak '|') = true := by decide
    rw [show metaLineOf d.metadata = METADATA_PREFIX ++ (d.metadata.doc_id
        ++ '|' :: (d.metadata.title ++ '|' :: (d.metadata.source
        ++ '|' :: d.metadata.timestamp))) from by simp [metaLineOf]]
    simp [lineBreakFree_append, lineBreakFree_cons, h1, h2, h3, h4, hpre, hbar]
  · subst hl; decide
  · rw [List.mem_flatten] at hl
    obtain ⟨ls, hls, hlmem⟩ := hl
    rw [List.mem_map] at hls
    obtain ⟨b, hbmem, hbeq⟩ := hls
    have hbwf : blockWF b = true := by
      rw [List.all_eq_true] at hbs
      exact hbs b hbmem
    unfold blockWF at hbwf
    simp only [Bool.and_eq_true] at hbwf
    obtain ⟨⟨⟨⟨⟨hkey, _⟩, hbrk⟩, _⟩, _⟩, hcontent⟩ := hbwf
    obtain ⟨c, hc, hcu⟩ := sigil_key_shape b.sigil hkey
    subst hbeq
    simp [blockOutLines] at hlmem
    rcases hlmem with hl1 | hl1 | hl1
    · subst hl1; decide
    · subst hl1
      unfold headerLineOf
      rw [hc]
      rw [show ('@' :: ([c] : Str) ++ ':' :: b.block_id)
          = '@' :: c :: ':' :: b.block_id from rfl]
      rw [lineBreakFree_cons, lineBreakFree_cons, lineBreakFree_cons]
      have hAt : (!isPyLineBreak '@') = true := by decide
      have hCol : (!isPyLineBreak ':') = true := by decide
      simp [hbrk, upper_not_break c hcu, hAt, hCol]
    · unfold blockContentOut at hl1
      by_cases hH : b.is_heredoc = true
      · rw [if_pos hH] at hl1
        rw [hH] at hcontent
        have hHwf : heredocLinesWF b.lines = true := by simpa using hcontent
        simp at hl1
        rcases hl1 with rfl | hl2 | rfl
        · decide
        · unfold heredocLinesWF at hHwf
          rw [List.all_eq_true] at hHwf
          have := hHwf l hl2
          simp only [Bool.and_eq_true] at this
          exact this.1
        · decide
      · rw [if_neg hH] at hl1
        have hHf : b.is_heredoc = false := by simpa using hH
        rw [hHf] at hcontent
        have hCwf : contentLinesWF b.lines = true := by simpa using hcontent
        unfold contentLinesWF at hCwf
        simp only [Bool.and_eq_true, List.all_eq_true] at hCwf
        have := hCwf.1.1 l hl1
        simp only [Bool.and_eq_true] at this
        exact this.1

/-- Parsing the formatted metadata line of well-formed metadata recovers the
metadata exactly. -/
theorem parseMetadata_metaLine (m : Metadata) (h : metadataWF m = true) :
    parseMetadata (metaLineOf m) 2 = .ok m := by
  have hf := metadataWF_fields m h
  obtain ⟨_, hid2, hid3⟩ := hf m.doc_id (by simp)
  obtain ⟨_, hti2, hti3⟩ := hf m.title (by simp)
  obtain ⟨_, hso2, hso3⟩ := hf m.source (by simp)
  obtain ⟨_, hts2, hts3⟩ := hf m.timestamp (by simp)
  unfold parseMetadata
  rw [show (metaLineOf m).drop METADATA_PREFIX.length
      = m.doc_id ++ '|' :: (m.title ++ '|' :: (m.source ++ '|' :: m.timestamp))
    from by simp [metaLineOf, METADATA_PREFIX]]
  rw [splitOnChar_pipe_append _ _ hid2, splitOnChar_pipe_append _ _ hti2,
    splitOnChar_pipe_append _ _ hso2, splitOnChar_pipe_free _ hts2]
  simp [hid3, hti3, hso3, hts3]

/-- General round-trip: parsing the formatted text of a well-formed document
yields the document with right-stripped content lines. -/
theorem parse_format_general (d : CPFDocument) (h : docWF d = true) :
    parseDoc (format_document d) = .ok ⟨VERSION, d.metadata, d.blocks.map rstripBlock⟩ := by
  have hbf := formatLines_breakFree d h
  have hver : docWF d = true := h
  unfold docWF at hver
  simp only [Bool.and_eq_true, beq_iff_eq] at hver
  obtain ⟨⟨_, hm⟩, hbs⟩ := hver
  have hsplit : splitLines (format_document d) = formatLines d := by
    unfold format_document
    exact splitLines_joinNewline _ hbf (by rw [formatLines_meta]; simp)
  unfold parseDoc
  rw [hsplit, formatLines_meta]
  simp only [parseFromHeader]
  rw [if_neg (by decide)]
  simp only [parseFromMetadata]
  rw [if_neg (by
    rw [metaLine_strip d.metadata hm]
    show ¬ (¬ (List.isPrefixOf METADATA_PREFIX (metaLineOf d.metadata) = true))
    simp [metaLineOf, METADATA_PREFIX, List.isPrefixOf])]
  rw [metaLine_strip d.metadata hm, parseMetadata_metaLine d.metadata hm]
  show parseFromSeparator d.metadata
    (SECTION_SEPARATOR :: (List.map blockOutLines d.blocks).flatten) = _
  simp only [parseFromSeparator]
  rw [if_neg (by decide)]
  rw [flatten_blockOut_eq_chunk]
  cases hbl : d.blocks with
  | nil =>
    show Except.map _ (parseBlocks 0 [] 3) = _
    rfl
  | cons b rest =>
    show Except.map _
      (parseBlocks (([] : Str) :: chunkLines (b :: rest)).length
        (([] : Str) :: chunkLines (b :: rest)) 3) = _
    rw [show (([] : Str) :: chunkLines (b :: rest)).length
        = (chunkLines (b :: rest)).length + 1 from by simp]
    rw [parseBlocks]
    rw [if_pos (by rfl)]
    rw [parseBlocks_chunk (b :: rest) _ 4 (by rw [← hbl]; exact hbs) (le_refl _)]
    rfl

/- ------------------------------------------------------------------ -/
/- Parse errors carry 1-indexed line numbers                           -/
/- ------------------------------------------------------------------ -/

theorem heredocCollect_idx_ge (openIdx : Nat) (ls : List Str) (i : Nat)
    (res : List Str × List Str × Nat) (h : heredocCollect openIdx ls i = .ok res) :
    i ≤ res.2.2 := by
  induction ls generalizing i res with
  | nil => simp [heredocCollect] at h
  | cons l rest ih =>
    by_cases hc : pstrip l = HEREDOC_CLOSE
    · simp [heredocCollect, hc] at h
      subst h
      simp
    · simp [heredocCollect, hc, Except.map] at h
      cases hr : heredocCollect openIdx rest (i + 1) with
      | error e => rw [hr] at h; simp at h
      | ok p =>
        rw [hr] at h
        simp at h
        have := ih (i + 1) p hr
        subst h
        simp
        omega

theorem heredocCollect_error_line (openIdx : Nat) (ls : List Str) :
    ∀ i e, heredocCollect openIdx ls i = .error e → e.line_num = openIdx + 1 := by
  induction ls with
  | nil =>
    intro i e h
    simp [heredocCollect] at h
    rw [← h]
  | cons l rest ih =>
    intro i e h
    by_cases hc : pstrip l = HEREDOC_CLOSE
    · simp [heredocCollect, hc] at h
    · simp [heredocCollect, hc, Except.map] at h
      cases hr : heredocCollect openIdx rest (i + 1) with
      | error e2 =>
        rw [hr] at h
        simp at h
        rw [← h]
        exact ih (i + 1) e2 hr
      | ok p => rw [hr] at h; simp at h

theorem parseHeredoc_error_line (ls : List Str) (start : Nat) (e : ParseErr)
    (h : parseHeredoc ls start = .error e) : e.line_num = start + 1 := by
  cases ls with
  | nil =>
    simp [parseHeredoc] at h
    rw [← h]
  | cons l rest =>
    by_cases ho : pstrip l = HEREDOC_OPEN
    · simp [parseHeredoc, ho] at h
      exact heredocCollect_error_line start rest (start + 1) e h
    · simp [parseHeredoc, ho] at h
      rw [← h]

theorem parseHeredoc_idx_ge (ls : List Str) (start : Nat)
    (res : List Str × List Str × Nat) (h : parseHeredoc ls start = .ok res) :
    start ≤ res.2.2 := by
  cases ls with
  | nil => simp [parseHeredoc] at h
  | cons l rest =>
    by_cases ho : pstrip l = HEREDOC_OPEN
    · simp [parseHeredoc, ho] at h
      have := heredocCollect_idx_ge start rest (start + 1) res h
      omega
    · simp [parseHeredoc, ho] at h

/-- Every error the block loop reports names a line at or after the loop's
current position (1-indexed). -/
theorem parseBlocks_error_line (fuel : Nat) :
    ∀ ls i e, parseBlocks fuel ls i = .error e → i + 1 ≤ e.line_num := by
  induction fuel with
  | zero =>
    intro ls i e h
    cases ls <;> simp [parseBlocks] at h
  | succ f ih =>
    intro ls i e h
    cases ls with
    | nil => simp [parseBlocks] at h
    | cons l rest =>
      rw [parseBlocks] at h
      by_cases hb : pstrip l = []
      · rw [if_pos hb] at h
        have := ih rest (i + 1) e h
        omega
      · rw [if_neg hb] at h
        cases hm : blockHeaderMatch (pstrip l) with
        | none =>
          rw [hm] at h
          have := ih rest (i + 1) e h
          omega
        | some cg =>
          simp only [hm] at h
          by_cases hs : dictHasKey SIGILS [cg.1]
          · rw [if_pos hs] at h
            by_cases hB : ([cg.1] : Str) = "B".data
            · rw [if_pos hB] at h
              cases hh : parseHeredoc rest (i + 1) with
              | error e2 =>
                rw [hh] at h
                simp at h
                have := parseHeredoc_error_line rest (i + 1) e2 hh
                rw [← h, this]
                omega
              | ok p =>
                rw [hh] at h
                simp only [Except.map] at h
                cases hrec : parseBlocks f p.2.1 p.2.2 with
                | error e2 =>
                  rw [hrec] at h
                  simp at h
                  have h1 := ih p.2.1 p.2.2 e2 hrec
                  have h2 := parseHeredoc_idx_ge rest (i + 1) p hh
                  rw [← h]
                  omega
                | ok bs => rw [hrec] at h; simp at h
            · rw [if_neg hB] at h
              simp only [Except.map] at h
              cases hrec : parseBlocks f (dropContent rest).2
                  (i + 1 + (dropContent rest).1.length) with
              | error e2 =>
                rw [hrec] at h
                simp at h
                have h1 := ih _ _ e2 hrec
                rw [← h]
                omega
              | ok bs => rw [hrec] at h; simp at h
          · rw [if_neg hs] at h
            simp at h
            rw [← h]
  -- the unknown-sigil error names the header's own line

/-- A metadata parse error carries the caller-supplied line number. -/
theorem parseMetadata_error_line (line : Str) (n : Nat) (e : ParseErr)
    (h : parseMetadata line n = .error e) : e.line_num = n := by
  unfold parseMetadata at h
  rcases hs : splitOnChar '|' (line.drop METADATA_PREFIX.length) with
    _ | ⟨p0, _ | ⟨p1, _ | ⟨p2, _ | ⟨p3, ps⟩⟩⟩⟩ <;>
    rw [hs] at h <;>
    first
      | (injection h with h2; rw [← h2])
      | (exact absurd h (by simp))

/-- Every error `parse` reports carries a positive (1-indexed) line number. -/
theorem parseDoc_error_line (text : Str) (e : ParseErr)
    (h : parseDoc text = .error e) : 1 ≤ e.line_num := by
  unfold parseDoc at h
  cases hsp : splitLines text with
  | nil =>
    rw [hsp] at h
    simp only [parseFromHeader] at h
    injection h with h2
    rw [← h2]
  | cons l0 rest0 =>
    rw [hsp] at h
    rw [parseFromHeader] at h
    by_cases h0 : pstrip l0 ≠ FORMAT_HEADER
    · rw [if_pos h0] at h
      injection h with h2
      rw [← h2]
    · rw [if_neg h0] at h
      cases rest0 with
      | nil =>
        simp only [parseFromMetadata] at h
        injection h with h2
        rw [← h2]; decide
      | cons l1 rest1 =>
        rw [parseFromMetadata] at h
        by_cases h1 : ¬ METADATA_PREFIX.isPrefixOf (pstrip l1)
        · rw [if_pos h1] at h
          injection h with h2
          rw [← h2]; decide
        · rw [if_neg h1] at h
          cases hmd : parseMetadata (pstrip l1) 2 with
          | error e2 =>
            rw [hmd] at h
            injection h with h2
            have := parseMetadata_error_line (pstrip l1) 2 e2 hmd
            rw [← h2]
            omega
          | ok md =>
            rw [hmd] at h
            simp only at h
            cases rest1 with
            | nil =>
              simp only [parseFromSeparator] at h
              injection h with h2
              rw [← h2]; decide
            | cons l2 rest2 =>
              rw [parseFromSeparator] at h
              by_cases h2 : pstrip l2 ≠ SECTION_SEPARATOR
              · rw [if_pos h2] at h
                injection h with h3
                rw [← h3]; decide
              · rw [if_neg h2] at h
                simp only [Except.map] at h
                cases hpb : parseBlocks rest2.length rest2 3 with
                | error e2 =>
                  rw [hpb] at h
                  injection h with h3
                  have := parseBlocks_error_line rest2.length rest2 3 e2 hpb
                  rw [← h3]
                  omega
                | ok bs => rw [hpb] at h; simp at h

/- ------------------------------------------------------------------ -/
/- Claim theorems: C1, C6, C7                                          -/
/- ------------------------------------------------------------------ -/

/-- C1, counterexample to the claim as stated: the Document Model invariants
of §3 (sigils from the fixed set, non-empty block ids, heredoc only for
blobs) do not forbid a `'|'` in a metadata field. For the block-free document
with title `"b|c"`, `parse(format_document(d))` succeeds but returns metadata
whose title is `"b"`: the round trip does not reproduce the metadata. -/
theorem claim_C1_counterexample :
    parseDoc (format_document ⟨"v1".data,
        ⟨"a".data, ('b' :: '|' :: 'c' :: []), "s".data, "t".data⟩, []⟩)
      = .ok ⟨"v1".data, ⟨"a".data, "b".data, "c".data, "s".data⟩, []⟩
    ∧ (('b' :: '|' :: 'c' :: []) : Str) ≠ "b".data := by
  constructor
  · decide
  · decide

/-- C1 (amended): for every Document satisfying the §3 invariants together
with the textual well-formedness the grammar needs — version `"v1"`; metadata
fields free of line breaks and pipes and with no surrounding whitespace;
block ids non-empty, break-free and strip-stable; heredoc exactly for `B`
blocks; non-heredoc content lines break-free, never matching the
`@SIGIL:id` pattern, with non-blank first and last lines; heredoc lines
break-free and never stripping to the close marker — `parse(format_document
d)` returns `d` exactly, except that each content line is right-stripped
(trailing whitespace trimmed). -/
theorem claim_C1_roundtrip (d : CPFDocument) (h : docWF d = true) :
    parseDoc (format_document d) = .ok { d with blocks := d.blocks.map rstripBlock } := by
  have hg := parse_format_general d h
  have hv : d.version = VERSION := by
    unfold docWF at h
    simp only [Bool.and_eq_true, beq_iff_eq] at h
    exact h.1.1
  rw [hg]
  rw [show ({ d with blocks := d.blocks.map rstripBlock } : CPFDocument)
      = ⟨d.version, d.metadata, d.blocks.map rstripBlock⟩ from rfl]
  rw [hv]

/-- C1 witness: a concrete two-block document (one rule block, one heredoc
blob block) satisfying the amended hypotheses, on which the round trip is
exact up to right-stripping. -/
theorem claim_C1_roundtrip_witness :
    docWF ⟨"v1".data,
      ⟨"doc-1".data, "Title".data, "src.md".data, "2026-01-01T00:00:00Z".data⟩,
      [⟨"R".data, "rules".data,
        ["?mnt mod exists->recommend ".data, "!!commit secrets".data], false⟩,
       ⟨"B".data, "blob-1".data, ["verbatim <main> line".data], true⟩]⟩ = true
    ∧ parseDoc (format_document ⟨"v1".data,
      ⟨"doc-1".data, "Title".data, "src.md".data, "2026-01-01T00:00:00Z".data⟩,
      [⟨"R".data, "rules".data,
        ["?mnt mod exists->recommend ".data, "!!commit secrets".data], false⟩,
       ⟨"B".data, "blob-1".data, ["verbatim <main> line".data], true⟩]⟩)
      = .ok { (⟨"v1".data,
          ⟨"doc-1".data, "Title".data, "src.md".data, "2026-01-01T00:00:00Z".data⟩,
          [⟨"R".data, "rules".data,
            ["?mnt mod exists->recommend ".data, "!!commit secrets".data], false⟩,
           ⟨"B".data, "blob-1".data, ["verbatim <main> line".data], true⟩]⟩ : CPFDocument)
          with blocks := [⟨"R".data, "rules".data,
            ["?mnt mod exists->recommend ".data, "!!commit secrets".data], false⟩,
           ⟨"B".data, "blob-1".data, ["verbatim <main> line".data], true⟩].map rstripBlock } :=
  ⟨by decide, claim_C1_roundtrip _ (by decide)⟩

/-- C6: `parse` failures always carry a 1-indexed (positive) line number;
parsing `"CPF|v1\nM|a|b|c|d\n---\n"` succeeds with an empty block list, and
parsing the same text with `"WRONG|v1"` as line 1 fails with a `ParseError`
whose line number is 1. -/
theorem claim_C6_parse_errors :
    (∀ text e, parseDoc text = .error e → 1 ≤ e.line_num)
    ∧ parseDoc ("CPF|v1\nM|a|b|c|d\n---\n".data)
        = .ok ⟨"v1".data, ⟨"a".data, "b".data, "c".data, "d".data⟩, []⟩
    ∧ parseDoc ("WRONG|v1\nM|a|b|c|d\n---\n".data)
        = .error ⟨1, ("Expected 'CPF|v1', got 'WRONG|v1'".data)⟩ := by
  refine ⟨parseDoc_error_line, ?_, ?_⟩
  · decide
  · decide

/-- C6 witness: the error-line bound applied at the concrete failing parse of
the `"WRONG|v1"` document. -/
theorem claim_C6_parse_errors_witness :
    1 ≤ (ParseErr.mk 1 ("Expected 'CPF|v1', got 'WRONG|v1'".data)).line_num :=
  claim_C6_parse_errors.1 ("WRONG|v1\nM|a|b|c|d\n---\n".data)
    ⟨1, ("Expected 'CPF|v1', got 'WRONG|v1'".data)⟩ (by decide)

/-- C7: a document is valid exactly when `validate` reports zero
error-severity entries; validating the duplicate-block-id document yields
zero errors and exactly one warning, whose message contains `"Duplicate"`. -/
theorem claim_C7_validator_duplicate :
    (∀ text, is_valid text = true ↔ errorCount text = 0)
    ∧ errorCount ("CPF|v1\nM|t|t|t|t\n---\n\n@R:same\nline1\n\n@R:same\nline2\n".data) = 0
    ∧ (validate ("CPF|v1\nM|t|t|t|t\n---\n\n@R:same\nline1\n\n@R:same\nline2\n".data)).filter
        (fun e => e.severity = "warning".data)
      = [⟨8, ("Duplicate block ID 'same'".data), "warning".data⟩]
    ∧ containsSub ("Duplicate block ID 'same'".data) ("Duplicate".data) = true := by
  refine ⟨?_, by decide, by decide, by decide⟩
  intro text
  unfold is_valid errorCount
  constructor
  · intro hv
    rw [List.length_eq_zero]
    rw [List.filter_eq_nil]
    intro e he
    simp only [Bool.not_eq_true', List.any_eq_false] at hv
    simpa using hv e he
  · intro hlen
    rw [List.length_eq_zero, List.filter_eq_nil] at hlen
    simp only [Bool.not_eq_true', List.any_eq_false]
    intro e he
    simpa using hlen e he

/- ------------------------------------------------------------------ -/
/- A small backtracking regex engine (Python `re` subset)              -/
/- ------------------------------------------------------------------ -/

/-- Abstract syntax of the Python-regex subset the sources use. Alternation
tries the left branch first; `star true` is greedy, `star false` lazy —
matching CPython's leftmost backtracking semantics. `look` is a zero-width
assertion over the previous character and the remaining input (used for `^`,
`$`, `\b` and single-character lookarounds). -/
inductive RE where
  | eps : RE
  | cls (p : Char → Bool) : RE
  | look (f : Option Char → List Char → Bool) : RE
  | seq (a b : RE) : RE
  | alt (a b : RE) : RE
  | star (greedy : Bool) (a : RE) : RE
  | group (n : Nat) (a : RE) : RE

/-- Captured group spans: group number to captured text, latest first. -/
abbrev Caps := List (Nat × Str)

/-- `m.group(n)`, defaulting to the empty string. -/
def capGet (caps : Caps) (n : Nat) : Str :=
  ((caps.find? (fun p => p.1 = n)).map (·.2)).getD []

/-- Structural size of a regex, for fuel computation. -/
def reSize : RE → Nat
  | .eps => 1
  | .cls _ => 1
  | .look _ => 1
  | .seq a b => reSize a + reSize b + 1
  | .alt a b => reSize a + reSize b + 1
  | .star _ a => reSize a + 1
  | .group _ a => reSize a + 1

/-- The continuation-passing backtracking matcher. `prev` is the character
before the current position (for `\b` and lookbehind); `k` is invoked on
every candidate way the regex can match here, in CPython's preference order,
and the first `some` wins. A star iteration that consumes nothing stops the
iteration (CPython's empty-match rule). Fuel only bounds the recursion; the
drivers below always supply enough. -/
def reM (fuel : Nat) (re : RE) (prev : Option Char) (s : List Char) (caps : Caps)
    (k : Option Char → List Char → Caps → Option α) : Option α :=
  match fuel with
  | 0 => none
  | fuel + 1 =>
    match re with
    | .eps => k prev s caps
    | .cls p =>
      match s with
      | [] => none
      | c :: rest => if p c then k (some c) rest caps else none
    | .look f => if f prev s then k prev s caps else none
    | .seq a b => reM fuel a prev s caps (fun p2 s2 c2 => reM fuel b p2 s2 c2 k)
    | .alt a b =>
      match reM fuel a prev s caps k with
      | some r => some r
      | none => reM fuel b prev s caps k
    | .star greedy a =>
      if greedy then
        match reM fuel a prev s caps (fun p2 s2 c2 =>
            if s2.length < s.length then reM fuel (.star greedy a) p2 s2 c2 k
            else none) with
        | some r => some r
        | none => k prev s caps
      else
        match k prev s caps with
        | some r => some r
        | none =>
          reM fuel a prev s caps (fun p2 s2 c2 =>
            if s2.length < s.length then reM fuel (.star greedy a) p2 s2 c2 k
            else none)
    | .group n a =>
      reM fuel a prev s caps (fun p2 s2 c2 =>
        k p2 s2 ((n, s.take (s.length - s2.length)) :: c2))

/-- Fuel that always suffices for the patterns and inputs at hand. -/
def reFuel (re : RE) (s : List Char) : Nat :=
  (reSize re + 2) * (s.length + 2)

/-- Try the regex anchored at the current position (Python `re.match` when
`prev = none`); returns the matched prefix, the captures and the rest. -/
def reMatchAt (re : RE) (prev : Option Char) (s : List Char) :
    Option (Str × Caps × Str) :=
  reM (reFuel re s) re prev s []
    (fun _ rest caps => some (s.take (s.length - rest.length), caps, rest))

/-- Python `re.match(pattern, s)` truthiness. -/
def reMatches (re : RE) (s : Str) : Bool := (reMatchAt re none s).isSome

/-- Python `re.match(pattern, s)` returning the captures. -/
def reMatchCaps (re : RE) (s : Str) : Option Caps :=
  (reMatchAt re none s).map (fun r => (0, r.1) :: r.2.1)

/-- Python `re.search` truthiness: the leftmost position where the pattern
matches. -/
def reSearchAux (re : RE) : Option Char → Str → Bool
  | prev, s =>
    match reMatchAt re prev s with
    | some _ => true
    | none =>
      match s with
      | [] => false
      | c :: rest => reSearchAux re (some c) rest

def reSearch (re : RE) (s : Str) : Bool := reSearchAux re none s

/-- Python `re.search` returning the first match's captures. -/
def reSearchCapsAux (re : RE) : Option Char → Str → Option Caps
  | prev, s =>
    match reMatchAt re prev s with
    | some r => some ((0, r.1) :: r.2.1)
    | none =>
      match s with
      | [] => none
      | c :: rest => reSearchCapsAux re (some c) rest

def reSearchCaps (re : RE) (s : Str) : Option Caps := reSearchCapsAux re none s

/-- Python `re.sub`: scan left to right, replacing non-overlapping matches;
after an empty match one character is copied through (CPython's rule). The
replacement sees the matched text and the captures. -/
def reSubAux (fuel : Nat) (re : RE) (repl : Str → Caps → Str)
    (prev : Option Char) (s : Str) : Str :=
  match fuel with
  | 0 => s
  | fuel + 1 =>
    match reMatchAt re prev s with
    | some (matched, caps, rest) =>
      if matched.isEmpty then
        match s with
        | [] => repl [] caps
        | c :: rest2 => repl [] caps ++ c :: reSubAux fuel re repl (some c) rest2
      else
        repl matched caps ++ reSubAux fuel re repl matched.getLast? rest
    | none =>
      match s with
      | [] => []
      | c :: rest => c :: reSubAux fuel re repl (some c) rest

def reSub (re : RE) (repl : Str → Caps → Str) (s : Str) : Str :=
  reSubAux (s.length + 1) re repl none s

/-- `re.sub` with a constant replacement string. -/
def reSubConst (re : RE) (repl : Str) (s : Str) : Str :=
  reSub re (fun _ _ => repl) s

/-- Python `re.findall` for a single-group pattern: the group-1 capture of
every non-overlapping match, left to right. -/
def reFindAllAux (fuel : Nat) (re : RE) (prev : Option Char) (s : Str) : List Str :=
  match fuel with
  | 0 => []
  | fuel + 1 =>
    match reMatchAt re prev s with
    | some (matched, caps, rest) =>
      if matched.isEmpty then
        match s with
        | [] => [capGet caps 1]
        | c :: rest2 => capGet caps 1 :: reFindAllAux fuel re prev (c :: rest2)
      else
        capGet caps 1 :: reFindAllAux fuel re matched.getLast? rest
    | none =>
      match s with
      | [] => []
      | c :: rest => reFindAllAux fuel re (some c) rest

def reFindAll (re : RE) (s : Str) : List Str :=
  reFindAllAux (s.length + 1) re none s

/- Pattern-building helpers -/

/-- ASCII lower-casing (the embedding's model of `str.lower`). -/
def lowerA (c : Char) : Char :=
  if 'A' ≤ c && c ≤ 'Z' then Char.ofNat (c.toNat + 32) else c

/-- ASCII `\w`. -/
def isWordA (c : Char) : Bool :=
  ('a' ≤ c && c ≤ 'z') || ('A' ≤ c && c ≤ 'Z') || ('0' ≤ c && c ≤ '9') || c = '_'

/-- ASCII letter (for the decoder's `[a-zA-Z]` lookarounds). -/
def isAlphaA (c : Char) : Bool :=
  ('a' ≤ c && c ≤ 'z') || ('A' ≤ c && c ≤ 'Z')

def isDigitA (c : Char) : Bool := '0' ≤ c && c ≤ '9'

/-- A literal character. -/
def chrRE (c : Char) : RE := .cls (fun x => x = c)

/-- A case-insensitive literal character (`re.I`). -/
def chrCI (c : Char) : RE := .cls (fun x => lowerA x = lowerA c)

/-- A literal string. -/
def strRE (s : Str) : RE := (s.map chrRE).foldr RE.seq .eps

/-- A case-insensitive literal string. -/
def strCI (s : Str) : RE := (s.map chrCI).foldr RE.seq .eps

/-- Ordered alternation of a list of regexes (first match preferred). -/
def altRE : List RE → RE
  | [] => .cls (fun _ => false)
  | [r] => r
  | r :: rest => .alt r (altRE rest)

/-- `r+` (greedy when `g`). -/
def plusRE (g : Bool) (a : RE) : RE := .seq a (.star g a)

/-- `r?` (greedy when `g`). -/
def optRE (g : Bool) (a : RE) : RE := if g then .alt a .eps else .alt .eps a

/-- `.` — any character except `'\n'`. -/
def dotRE : RE := .cls (fun c => !(c = '\n'))

/-- `\s` / `\S`. -/
def spaceRE : RE := .cls isPySpace

def nonSpaceRE : RE := .cls (fun c => !isPySpace c)

/-- `^` (no MULTILINE: start of string). -/
def bosRE : RE := .look (fun prev _ => prev.isNone)

/-- `$` (no MULTILINE: end of string or before a final `'\n'`). -/
def eosRE : RE := .look (fun _ rest => rest = [] || rest = ['\n'])

/-- `\b`. -/
def wordB : RE := .look (fun prev rest =>
  let pw := match prev with | none => false | some c => isWordA c
  let nw := match rest with | [] => false | c :: _ => isWordA c
  pw ≠ nw)

/-- `(?<!p)` for a single-character class. -/
def lookBehindNeg (p : Char → Bool) : RE :=
  .look (fun prev _ => match prev with | none => true | some c => !p c)

/-- `(?!p)` for a single-character class. -/
def lookAheadNeg (p : Char → Bool) : RE :=
  .look (fun _ rest => match rest with | [] => true | c :: _ => !p c)

/-- Right-nested sequence of a list of regexes. -/
def seqRE (l : List RE) : RE := l.foldr RE.seq .eps

/- ------------------------------------------------------------------ -/
/- cpf/patterns.py — the compiled patterns                             -/
/- ------------------------------------------------------------------ -/

/-- `PRIORITY_HEADERS = (priorit|order|hierarchy|ranking|precedence)`, `re.I`. -/
def PRIORITY_HEADERS : RE :=
  altRE [strCI ("priorit".data), strCI ("order".data), strCI ("hierarchy".data),
    strCI ("ranking".data), strCI ("precedence".data)]

/-- `NEGATION_HEADERS =
(restriction|prohibited|forbidden|don.t|avoid|never|quality.gate|checklist)`,
`re.I` (the `.` is the regex wildcard). -/
def NEGATION_HEADERS : RE :=
  altRE [strCI ("restriction".data), strCI ("prohibited".data),
    strCI ("forbidden".data),
    seqRE [strCI ("don".data), dotRE, strCI ("t".data)],
    strCI ("avoid".data), strCI ("never".data),
    seqRE [strCI ("quality".data), dotRE, strCI ("gate".data)],
    strCI ("checklist".data)]

/-- `TONE_HEADERS = (tone|personality|style|voice|character|persona|communication|approach)`, `re.I`. -/
def TONE_HEADERS : RE :=
  altRE [strCI ("tone".data), strCI ("personality".data), strCI ("style".data),
    strCI ("voice".data), strCI ("character".data), strCI ("persona".data),
    strCI ("communication".data), strCI ("approach".data)]

/-- `SEQUENCE_HEADERS = (step|sequence|workflow|procedure|process|after|before|how.to)`, `re.I`. -/
def SEQUENCE_HEADERS : RE :=
  altRE [strCI ("step".data), strCI ("sequence".data), strCI ("workflow".data),
    strCI ("procedure".data), strCI ("process".data), strCI ("after".data),
    strCI ("before".data),
    seqRE [strCI ("how".data), dotRE, strCI ("to".data)]]

/-- `ZONE_HEADERS = (boundar|scope|zone|path|workspace|directory|folder)`, `re.I`. -/
def ZONE_HEADERS : RE :=
  altRE [strCI ("boundar".data), strCI ("scope".data), strCI ("zone".data),
    strCI ("path".data), strCI ("workspace".data), strCI ("directory".data),
    strCI ("folder".data)]

/-- `CONDITIONAL_RE = ^(?:\*\*)?(?:If|When|Unless)\b\s*(.+?)(?:\*\*)?(?:[:,]\s*|\s*[-—]\s*)(.*)`, `re.I`. -/
def CONDITIONAL_RE : RE :=
  seqRE [bosRE, optRE true (strRE ("**".data)),
    altRE [strCI ("If".data), strCI ("When".data), strCI ("Unless".data)], wordB,
    .star true spaceRE, .group 1 (plusRE false dotRE), optRE true (strRE ("**".data)),
    .alt (seqRE [.cls (fun c => c = ':' || c = ','), .star true spaceRE])
         (seqRE [.star true spaceRE, .cls (fun c => c = '-' || c = '—'),
           .star true spaceRE]),
    .group 2 (.star true dotRE)]

/-- `NEGATION_LINE_RE = ^(?:\*\*)?(?:Do\s+NOT|do\s+not|Don't|dont|Never|Avoid|NEVER)\b\s*(.+?)(?:\*\*)?\.?\s*$`, `re.I`. -/
def NEGATION_LINE_RE : RE :=
  seqRE [bosRE, optRE true (strRE ("**".data)),
    altRE [seqRE [strCI ("Do".data), plusRE true spaceRE, strCI ("NOT".data)],
      seqRE [strCI ("do".data), plusRE true spaceRE, strCI ("not".data)],
      strCI ("Don't".data), strCI ("dont".data), strCI ("Never".data),
      strCI ("Avoid".data), strCI ("NEVER".data)], wordB,
    .star true spaceRE, .group 1 (plusRE false dotRE), optRE true (strRE ("**".data)),
    optRE true (chrRE '.'), .star true spaceRE, eosRE]

/-- `EXACT_MATCH_RE = (?:MUST|must|shall)\s+(?:be|equal|match|use)\s+[`"']([^`"']+)[`"']`, `re.I`. -/
def EXACT_MATCH_RE : RE :=
  seqRE [altRE [strCI ("MUST".data), strCI ("must".data), strCI ("shall".data)],
    plusRE true spaceRE,
    altRE [strCI ("be".data), strCI ("equal".data), strCI ("match".data),
      strCI ("use".data)],
    plusRE true spaceRE,
    .cls (fun c => c = '`' || c = '"' || c = '\''),
    .group 1 (plusRE true (.cls (fun c => !(c = '`' || c = '"' || c = '\'')))),
    .cls (fun c => c = '`' || c = '"' || c = '\'')]

/-- `NUMBERED_RE = ^\s*(\d+)\.\s+(.+)$`. -/
def NUMBERED_RE : RE :=
  seqRE [bosRE, .star true spaceRE, .group 1 (plusRE true (.cls isDigitA)),
    chrRE '.', plusRE true spaceRE, .group 2 (plusRE true dotRE), eosRE]

/-- `PATH_REF_RE`: a slash-led path of two or more segments, each one or
more characters from `\w`, dot, slash, hyphen (`\w` modelled as ASCII). -/
def pathChar (c : Char) : Bool := isWordA c || c = '.' || c = '/' || c = '-'

def PATH_REF_RE : RE :=
  .group 1 (seqRE [chrRE '/', plusRE true (.cls pathChar),
    plusRE true (seqRE [chrRE '/', plusRE true (.cls pathChar)])])

/-- `BOLD_KV_RE = ^\*\*(.+?)\*\*\s*(?:[:—-]+)\s*(.+)$`. -/
def BOLD_KV_RE : RE :=
  seqRE [bosRE, strRE ("**".data), .group 1 (plusRE false dotRE),
    strRE ("**".data), .star true spaceRE,
    plusRE true (.cls (fun c => c = ':' || c = '—' || c = '-')),
    .star true spaceRE, .group 2 (plusRE true dotRE), eosRE]

/-- `DEFINITION_RE = ^(.+?)\s+(?:means|is defined as|is|are)\s+(.+)$`, `re.I`
(present in the source; not referenced by the pipeline). -/
def DEFINITION_RE : RE :=
  seqRE [bosRE, .group 1 (plusRE false dotRE), plusRE true spaceRE,
    altRE [strCI ("means".data), strCI ("is defined as".data),
      strCI ("is".data), strCI ("are".data)],
    plusRE true spaceRE, .group 2 (plusRE true dotRE), eosRE]

/-- `PREFER_RE = (?:Prefer|prefer)\s+(.+?)\s+(?:over|>|instead of|rather than)\s+(.+)`, `re.I`. -/
def PREFER_RE : RE :=
  seqRE [altRE [strCI ("Prefer".data), strCI ("prefer".data)],
    plusRE true spaceRE, .group 1 (plusRE false dotRE), plusRE true spaceRE,
    altRE [strCI ("over".data), strCI (">".data), strCI ("instead of".data),
      strCI ("rather than".data)],
    plusRE true spaceRE, .group 2 (plusRE true dotRE)]

/-- `IMPERATIVE_RE = ^(?:\*\*)?(?:Always|Must|Ensure|Make sure|Required|Important)\b[:\s]*(.+?)(?:\*\*)?\.?\s*$`, `re.I`. -/
def IMPERATIVE_RE : RE :=
  seqRE [bosRE, optRE true (strRE ("**".data)),
    altRE [strCI ("Always".data), strCI ("Must".data), strCI ("Ensure".data),
      strCI ("Make sure".data), strCI ("Required".data), strCI ("Important".data)],
    wordB, .star true (.cls (fun c => c = ':' || isPySpace c)),
    .group 1 (plusRE false dotRE), optRE true (strRE ("**".data)),
    optRE true (chrRE '.'), .star true spaceRE, eosRE]

/-- `AND_CONNECTOR_RE = \b(?:and|also|as well as|along with|plus)\b`, `re.I`. -/
def AND_CONNECTOR_RE : RE :=
  seqRE [wordB, altRE [strCI ("and".data), strCI ("also".data),
    strCI ("as well as".data), strCI ("along with".data), strCI ("plus".data)],
    wordB]

/-- `OR_CONNECTOR_RE = \b(?:\bor\b|alternatively)\b`, `re.I`. -/
def OR_CONNECTOR_RE : RE :=
  seqRE [wordB, altRE [seqRE [wordB, strCI ("or".data), wordB],
    strCI ("alternatively".data)], wordB]

/-- `FILLER_WORDS` — the ordered alternation of filler phrases, `re.I`. -/
def FILLER_WORDS : RE :=
  seqRE [wordB, altRE ([
    "please", "basically", "essentially", "simply", "just", "that is",
    "in order to", "make sure to", "be sure to", "it is important to",
    "you should", "you must", "we need to", "we should", "there is",
    "there are", "this is", "that are", "which is", "which are",
    "in this case", "at this point", "for this purpose"].map
      (fun w => strCI (String.data w))), wordB]

/-- `ARTICLES_RE = \b(a|an|the)\b\s*`, `re.I`. -/
def ARTICLES_RE : RE :=
  seqRE [wordB, .group 1 (altRE [strCI ("a".data), strCI ("an".data),
    strCI ("the".data)]), wordB, .star true spaceRE]

/-- `classify_section(header, lines) -> sigil letter` (lines 104–145 of
`patterns.py`). Threshold comparisons are exact-rational models of the
source's float comparisons (`x / total > 0.6` as `10 * x > 6 * total`). -/
def classify_section (header : Str) (lines : List Str) : Str :=
  let header_lower := header.map lowerA
  if reSearch ZONE_HEADERS header_lower then "Z".data
  else if reSearch TONE_HEADERS header_lower then "T".data
  else if reSearch PRIORITY_HEADERS header_lower then "P".data
  else if reSearch SEQUENCE_HEADERS header_lower then "S".data
  else if reSearch NEGATION_HEADERS header_lower then "N".data
  else
    let negation_count := (lines.filter (fun l => reMatches NEGATION_LINE_RE (pstrip l))).length
    let conditional_count := (lines.filter (fun l => reMatches CONDITIONAL_RE (pstrip l))).length
    let numbered_count := (lines.filter (fun l => reMatches NUMBERED_RE (pstrip l))).length
    let total := (lines.filter (fun l => pstrip l ≠ [])).length
    let _ := conditional_count   -- computed but unused in the source as well
    if total = 0 then "R".data
    else if negation_count > 0 ∧ 10 * negation_count > 6 * total then "N".data
    else if numbered_count > 0 ∧ 10 * numbered_count > 6 * total then "P".data
    else if numbered_count > 0 ∧ 10 * numbered_count > 4 * total then "S".data
    else "R".data

/-- The decision table exactly as the specification words it (for C3):
header keyword families checked first in the fixed order zone, tone,
priority, sequence, negation; otherwise, with `total` the number of
non-blank lines: rule when there is no non-blank line, negation when the
negation-line ratio exceeds 0.6, else priority when the numbered ratio
exceeds 0.6, else sequence when it exceeds 0.4, else rule. -/
def classifySpecTable (header : Str) (lines : List Str) : Str :=
  let header_lower := header.map lowerA
  if reSearch ZONE_HEADERS header_lower then "Z".data
  else if reSearch TONE_HEADERS header_lower then "T".data
  else if reSearch PRIORITY_HEADERS header_lower then "P".data
  else if reSearch SEQUENCE_HEADERS header_lower then "S".data
  else if reSearch NEGATION_HEADERS header_lower then "N".data
  else
    let negation_count := (lines.filter (fun l => reMatches NEGATION_LINE_RE (pstrip l))).length
    let numbered_count := (lines.filter (fun l => reMatches NUMBERED_RE (pstrip l))).length
    let total := (lines.filter (fun l => pstrip l ≠ [])).length
    if total = 0 then "R".data
    else if 10 * negation_count > 6 * total then "N".data
    else if 10 * numbered_count > 6 * total then "P".data
    else if 10 * numbered_count > 4 * total then "S".data
    else "R".data

/-- The content-ratio stage of the classifier: the source's extra
`count > 0` conjuncts are redundant once `total > 0`. -/
theorem classify_inner_eq (neg num tot : Nat) :
    (if tot = 0 then ("R".data : Str)
     else if neg > 0 ∧ 10 * neg > 6 * tot then "N".data
     else if num > 0 ∧ 10 * num > 6 * tot then "P".data
     else if num > 0 ∧ 10 * num > 4 * tot then "S".data
     else "R".data)
    = (if tot = 0 then ("R".data : Str)
     else if 10 * neg > 6 * tot then "N".data
     else if 10 * num > 6 * tot then "P".data
     else if 10 * num > 4 * tot then "S".data
     else "R".data) := by
  split_ifs <;> first | rfl | omega

/-- C3: `classify_section` implements exactly the specification's decision
table (header families in the fixed order zone, tone, priority, sequence,
negation; then the 0.6/0.6/0.4 content ratios over non-blank lines, with an
empty-content section classifying as rule), and the concrete scenario: a
section headed "Quality Gate" whose 4 lines include 3 negation lines
classifies as sigil `N`. -/
theorem claim_C3_classify :
    (∀ header lines, classify_section header lines = classifySpecTable header lines)
    ∧ classify_section ("Quality Gate".data)
        ["Do NOT commit secrets.".data, "Never leave debug code.".data,
         "Avoid broad upgrades.".data, "update deps carefully.".data] = "N".data := by
  constructor
  · intro header lines
    unfold classify_section classifySpecTable
    dsimp only
    by_cases h1 : reSearch ZONE_HEADERS (header.map lowerA) = true
    · rw [if_pos h1, if_pos h1]
    · rw [if_neg h1, if_neg h1]
      by_cases h2 : reSearch TONE_HEADERS (header.map lowerA) = true
      · rw [if_pos h2, if_pos h2]
      · rw [if_neg h2, if_neg h2]
        by_cases h3 : reSearch PRIORITY_HEADERS (header.map lowerA) = true
        · rw [if_pos h3, if_pos h3]
        · rw [if_neg h3, if_neg h3]
          by_cases h4 : reSearch SEQUENCE_HEADERS (header.map lowerA) = true
          · rw [if_pos h4, if_pos h4]
          · rw [if_neg h4, if_neg h4]
            by_cases h5 : reSearch NEGATION_HEADERS (header.map lowerA) = true
            · rw [if_pos h5, if_pos h5]
            · rw [if_neg h5, if_neg h5]
              exact classify_inner_eq _ _ _
  · decide

/- ------------------------------------------------------------------ -/
/- cpf/utils.py                                                        -/
/- ------------------------------------------------------------------ -/

/-- Python `str.replace(pat, repl)` for a non-empty literal pattern:
left-to-right, non-overlapping. -/
def replaceLitAux (fuel : Nat) (pat repl s : Str) : Str :=
  match fuel with
  | 0 => s
  | fuel + 1 =>
    match s with
    | [] => []
    | c :: rest =>
      if pat ≠ [] && pat.isPrefixOf s then
        repl ++ replaceLitAux fuel pat repl (s.drop pat.length)
      else c :: replaceLitAux fuel pat repl rest

def replaceLit (pat repl s : Str) : Str := replaceLitAux s.length pat repl s

/-- Python `str.strip(chars)` for a character predicate. -/
def stripBothBy (p : Char → Bool) (s : Str) : Str :=
  ((s.dropWhile p).reverse.dropWhile p).reverse

/-- `slugify` (lines 8–25 of `utils.py`): drop heading markers and bold
markers, lower-case, replace non-alphanumeric runs by hyphens, collapse
hyphen runs, strip edge hyphens. -/
def slugify (text : Str) : Str :=
  let t1 := reSubConst (seqRE [bosRE, plusRE true (chrRE '#'), .star true spaceRE]) [] text
  let t2 := replaceLit ("**".data) [] t1
  let t3 := pstrip (t2.map lowerA)
  let t4 := reSubConst (plusRE true (.cls (fun c =>
    !(('a' ≤ c && c ≤ 'z') || ('0' ≤ c && c ≤ '9'))))) ("-".data) t3
  let t5 := reSubConst (plusRE true (chrRE '-')) ("-".data) t4
  stripBothBy (fun c => c = '-') t5

/-- The italic-stripping pattern of `strip_markdown_formatting`: a single
`*` (not doubled) framing a lazy body, replaced by the body. The same shape
is used for `_`. -/
def singleMarkPair (m : Char) : RE :=
  seqRE [lookBehindNeg (fun c => c = m), chrRE m, lookAheadNeg (fun c => c = m),
    .group 1 (.star false dotRE),
    lookBehindNeg (fun c => c = m), chrRE m, lookAheadNeg (fun c => c = m)]

/-- `strip_markdown_formatting`: remove `**` and `__` pairs outright, then
single `*`/`_` italic pairs. -/
def strip_markdown_formatting (text : Str) : Str :=
  let t1 := replaceLit ("**".data) [] text
  let t2 := replaceLit ("__".data) [] t1
  let t3 := reSub (singleMarkPair '*') (fun _ caps => capGet caps 1) t2
  reSub (singleMarkPair '_') (fun _ caps => capGet caps 1) t3

/-- `strip_articles`. -/
def strip_articles (text : Str) : Str :=
  reSubConst ARTICLES_RE [] text

/-- `collapse_whitespace`: spaces/tabs collapse to one space, then strip. -/
def collapse_whitespace (text : Str) : Str :=
  pstrip (reSubConst (plusRE true (.cls (fun c => c = ' ' || c = '\t'))) (" ".data) text)

/-- `strip_bullet_prefix`. -/
def strip_bullet_prefix (line : Str) : Str :=
  let stripped := pstrip line
  if ("- ".data).isPrefixOf stripped then stripped.drop 2
  else if ("* ".data).isPrefixOf stripped then stripped.drop 2
  else stripped

/-- The section-header pattern `^(#{1,6})\s+(.+)$`. -/
def SECTION_HEADER_RE : RE :=
  seqRE [bosRE,
    .group 1 (seqRE [chrRE '#', optRE true (seqRE [chrRE '#',
      optRE true (seqRE [chrRE '#', optRE true (seqRE [chrRE '#',
        optRE true (seqRE [chrRE '#', optRE true (chrRE '#')])])])])]),
    plusRE true spaceRE, .group 2 (plusRE true dotRE), eosRE]

/-- `extract_section_header`: the header text of a markdown heading line,
`none` otherwise. -/
def extract_section_header (line : Str) : Option Str :=
  match reMatchCaps SECTION_HEADER_RE (pstrip line) with
  | some caps => some (pstrip (capGet caps 2))
  | none => none

/-- The number of whitespace-delimited words (`re.findall(r"\S+", text)`). -/
def countWordsAux : Str → Bool → Nat
  | [], _ => 0
  | c :: rest, inw =>
    if isPySpace c then countWordsAux rest false
    else (if inw then 0 else 1) + countWordsAux rest true

def countWords (s : Str) : Nat := countWordsAux s false

/-- `count_tokens_estimate`: `max(1, int(len(words) * 1.3))`. The float
product truncated by `int` equals `13 * n / 10` in integer arithmetic. -/
def count_tokens_estimate (text : Str) : Nat :=
  max 1 (13 * countWords text / 10)

/- ------------------------------------------------------------------ -/
/- cpf/abbreviations.py                                                -/
/- ------------------------------------------------------------------ -/

/-- `ENCODE_MAP` — the built-in abbreviation dict, in source order. -/
def ENCODE_MAP : Dict :=
  [("module".data, "mod".data), ("modules".data, "mods".data),
   ("plugin".data, "plg".data), ("plugins".data, "plgs".data),
   ("maintained".data, "mnt".data), ("abandoned".data, "abd".data),
   ("dependency".data, "dep".data), ("dependencies".data, "deps".data),
   ("configuration".data, "cfg".data), ("configure".data, "cfg".data),
   ("security".data, "sec".data), ("performance".data, "perf".data),
   ("stability".data, "stab".data), ("documentation".data, "doc".data),
   ("authentication".data, "auth".data), ("permissions".data, "perm".data),
   ("repository".data, "repo".data), ("repositories".data, "repos".data),
   ("template".data, "tpl".data), ("templates".data, "tpls".data),
   ("environment".data, "env".data), ("implementation".data, "impl".data),
   ("version".data, "ver".data), ("versions".data, "vers".data),
   ("update".data, "upd".data), ("updates".data, "upds".data),
   ("breaking".data, "brk".data), ("compatibility".data, "compat".data),
   ("developer experience".data, "dx".data),
   ("continuous integration".data, "ci".data),
   ("pull request".data, "pr".data), ("pull requests".data, "prs".data),
   ("function".data, "fn".data), ("functions".data, "fns".data),
   ("class".data, "cls".data), ("classes".data, "clss".data),
   ("service".data, "svc".data), ("services".data, "svcs".data),
   ("dependency injection".data, "di".data),
   ("cache".data, "cch".data), ("caching".data, "cch".data),
   ("context".data, "ctx".data), ("require".data, "req".data),
   ("required".data, "req".data), ("requirement".data, "req".data),
   ("requirements".data, "reqs".data), ("validate".data, "val".data),
   ("validation".data, "val".data), ("sanitize".data, "san".data),
   ("sanitization".data, "san".data), ("escape".data, "esc".data),
   ("escaping".data, "esc".data), ("check".data, "chk".data),
   ("checks".data, "chks".data), ("WordPress".data, "wp".data),
   ("Drupal".data, "dp".data), ("deprecated".data, "depr".data),
   ("deprecation".data, "depr".data), ("deprecations".data, "deprs".data),
   ("application".data, "app".data), ("applications".data, "apps".data),
   ("database".data, "db".data), ("databases".data, "dbs".data),
   ("directory".data, "dir".data), ("directories".data, "dirs".data),
   ("parameter".data, "param".data), ("parameters".data, "params".data),
   ("argument".data, "arg".data), ("arguments".data, "args".data),
   ("response".data, "resp".data), ("request".data, "req".data),
   ("middleware".data, "mw".data), ("controller".data, "ctrl".data),
   ("controllers".data, "ctrls".data), ("component".data, "comp".data),
   ("components".data, "comps".data), ("description".data, "desc".data),
   ("specification".data, "spec".data), ("infrastructure".data, "infra".data),
   ("production".data, "prod".data), ("development".data, "dev".data),
   ("default".data, "def".data), ("maximum".data, "max".data),
   ("minimum".data, "min".data), ("information".data, "info".data),
   ("available".data, "avail".data), ("backwards".data, "bkwd".data),
   ("otherwise".data, "else".data), ("approximately".data, "~".data),
   ("important".data, "*".data)]

/-- `DECODE_MAP`: built by iterating `ENCODE_MAP` in order and keeping the
first full phrase seen for each abbreviation token. -/
def DECODE_MAP : Dict :=
  (ENCODE_MAP.foldl
    (fun acc p => if dictHasKey acc.1 p.2 then acc
      else (acc.1 ++ [(p.2, p.1)], acc.2))
    (([] : Dict), ())).1

/-- `abbreviate(word, custom?)`: exact key first, then a case-insensitive
scan in table order, else the word unchanged. -/
def abbreviate (word : Str) (custom : Option Dict := none) : Str :=
  let lookup := match custom with | some c => if c ≠ [] then c else ENCODE_MAP | none => ENCODE_MAP
  match dictGet lookup word with
  | some abbr => abbr
  | none =>
    let lower := word.map lowerA
    match lookup.find? (fun p => p.1.map lowerA = lower) with
    | some p => p.2
    | none => word

/-- `expand(abbr, custom?)`: exact decode-table lookup, else unchanged. -/
def expand (abbr : Str) (custom : Option Dict := none) : Str :=
  let lookup := match custom with | some c => if c ≠ [] then c else DECODE_MAP | none => DECODE_MAP
  match dictGet lookup abbr with
  | some full => full
  | none => abbr

/-- `merge_abbreviations`: custom wins on key collision. -/
def merge_abbreviations (baseEncode baseDecode customEncode customDecode : Dict) :
    Dict × Dict :=
  (dictUpdate baseEncode customEncode, dictUpdate baseDecode customDecode)

/-- The estimator as the claim words it: words times 1.3 rounded to the
nearest integer (floor of x + 1/2), minimum 1. -/
def count_tokens_estimate_claim (text : Str) : Nat :=
  max 1 (Nat.floor ((countWords text : ℚ) * (13 / 10) + 1 / 2))

/-- C9 counterexample: on "a b c" (3 words) the code truncates 3.9 to 3,
while rounding to the nearest integer as claimed would give 4. -/
theorem claim_C9_counterexample :
    count_tokens_estimate ("a b c".data) = 3 ∧
    count_tokens_estimate_claim ("a b c".data) = 4 := by
  constructor
  · decide
  · have h : countWords ("a b c".data) = 3 := by decide
    have h45 : Nat.floor ((22 / 5 : ℚ)) = 4 := by
      rw [show (22 / 5 : ℚ) = ((22 : ℕ) : ℚ) / ((5 : ℕ) : ℚ) by norm_num,
        Nat.floor_div_nat, Nat.floor_natCast]
    unfold count_tokens_estimate_claim
    rw [h, show ((3:ℕ):ℚ) * (13 / 10) + 1 / 2 = 22 / 5 by norm_num, h45]
    rfl

/-- C9 (amended): `count_tokens_estimate` returns the floor (truncation),
not the nearest integer, of the word count times 1.3, with a minimum of 1;
concretely the empty string gives 1, "a b c" gives 3 (not 4), and a
ten-word string gives exactly 13. -/
theorem claim_C9_estimate :
    (∀ text : Str,
      count_tokens_estimate text
        = max 1 (Nat.floor ((countWords text : ℚ) * (13 / 10)))) ∧
    count_tokens_estimate [] = 1 ∧
    count_tokens_estimate ("a b c".data) = 3 ∧
    count_tokens_estimate ("one two three four five six seven eight nine ten".data) = 13 := by
  refine ⟨fun text => ?_, by decide, by decide, by decide⟩
  unfold count_tokens_estimate
  congr 1
  rw [show ((countWords text : ℚ)) * (13 / 10)
        = ((13 * countWords text : ℕ) : ℚ) / ((10 : ℕ) : ℚ) by push_cast; ring]
  rw [Nat.floor_div_nat, Nat.floor_natCast]

set_option maxRecDepth 20000 in
/-- C8: every abbreviation occurring in `ENCODE_MAP` is a key of
`DECODE_MAP`, and it decodes to the FIRST phrase of the encode table that
carries that abbreviation (first-insertion-wins); concretely the collision
token "req" decodes to "require" and "cfg" to "configuration". -/
theorem claim_C8_decode_map :
    (∀ p ∈ ENCODE_MAP,
      dictHasKey DECODE_MAP p.2 = true ∧
      dictGet DECODE_MAP p.2 = (ENCODE_MAP.find? (fun r => r.2 == p.2)).map Prod.fst) ∧
    dictGet DECODE_MAP ("req".data) = some ("require".data) ∧
    dictGet DECODE_MAP ("cfg".data) = some ("configuration".data) := by
  refine ⟨?_, by decide, by decide⟩
  decide

/- ------------------------------------------------------------------ -/
/- cpf/tokenizer.py                                                    -/
/- ------------------------------------------------------------------ -/

/-- Python `str.rstrip(chars)` for a character predicate. -/
def stripRightBy (p : Char → Bool) (s : Str) : Str :=
  (s.reverse.dropWhile p).reverse

/-- The pronoun pattern of the tokenizer, `re.I`:
a word from the pronoun list followed by optional spaces. -/
def PRONOUNS_RE : RE :=
  seqRE [wordB, .group 1 (altRE ([
    "you", "your", "yours", "we", "our", "they", "their", "them", "it",
    "its", "this", "that", "these", "those", "which", "who", "whom",
    "whose"].map (fun w => strCI (String.data w)))), wordB,
    .star true spaceRE]

/-- A plain case-insensitive whole-word phrase pattern. -/
def wordCI (w : String) : RE := seqRE [wordB, strCI w.data, wordB]

/-- `_VERBOSE_PHRASES` — the ordered replacement table of the tokenizer. -/
def VERBOSE_PHRASES : List (RE × Str) :=
  [(wordCI "for example", "e.g.".data),
   (wordCI "for instance", "e.g.".data),
   (wordCI "such as", "e.g.".data),
   (wordCI "in order to", "to".data),
   (wordCI "so that", "so".data),
   (wordCI "as well as", "+".data),
   (wordCI "along with", "+".data),
   (wordCI "in addition to", "+".data),
   (wordCI "with respect to", "re:".data),
   (wordCI "with regard to", "re:".data),
   (wordCI "regarding", "re:".data),
   (wordCI "is required", "req".data),
   (wordCI "are required", "req".data),
   (wordCI "is not", "!".data),
   (wordCI "are not", "!".data),
   (wordCI "do not", "!!".data),
   (wordCI "should not", "!!".data),
   (wordCI "must not", "!!".data),
   (wordCI "can not", "!!".data),
   (wordCI "cannot", "!!".data),
   (wordCI "should be", "=>".data),
   (wordCI "needs to be", "=>".data),
   (wordCI "has to be", "=>".data),
   (wordCI "when possible", "[possible]".data),
   (wordCI "where appropriate", "[appropriate]".data),
   (wordCI "where needed", "[needed]".data),
   (wordCI "if needed", "[needed]".data),
   (wordCI "if applicable", "[applicable]".data),
   (wordCI "when relevant", "[relevant]".data),
   (wordCI "if relevant", "[relevant]".data),
   (wordCI "at least", ">=".data),
   (wordCI "at minimum", ">=".data),
   (wordCI "at most", "<=".data),
   (wordCI "more than", ">".data),
   (wordCI "less than", "<".data),
   (wordCI "greater than", ">".data),
   (seqRE [wordB, strCI ("result".data), optRE true (chrCI 's'),
      chrRE ' ', strCI ("in".data), wordB], "=>".data),
   (seqRE [wordB, strCI ("lead".data), optRE true (chrCI 's'),
      chrRE ' ', strCI ("to".data), wordB], "=>".data),
   (seqRE [wordB, strCI ("see".data), plusRE true spaceRE], "@>".data),
   (wordCI "refer to", "@>".data),
   (wordCI "make sure", "ensure".data),
   (wordCI "be sure to", "ensure".data)]

/-- `_TRAILING_FLUFF = \s*[.;,]+\s*$`. -/
def TRAILING_FLUFF : RE :=
  seqRE [.star true spaceRE,
    plusRE true (.cls (fun c => c = '.' || c = ';' || c = ',')),
    .star true spaceRE, eosRE]

/-- `_MULTI_OPERATORS = ([+|;])\1+`: a run of two or more of the same
operator character. The backreference is unrolled per character. -/
def MULTI_OPERATORS : RE :=
  altRE [seqRE [.group 1 (chrRE '+'), plusRE true (chrRE '+')],
    seqRE [.group 1 (chrRE '|'), plusRE true (chrRE '|')],
    seqRE [.group 1 (chrRE ';'), plusRE true (chrRE ';')]]

/-- One pass of `_apply_abbreviations`: whole-word, case-insensitive
substitution of one table entry. -/
def applyAbbrevStep (text : Str) (p : Str × Str) : Str :=
  reSubConst (seqRE [wordB, strCI p.1, wordB]) p.2 text

/-- `_apply_abbreviations`: entries sorted by key length descending
(stable), each applied as a whole-word case-insensitive substitution. -/
def apply_abbreviations (text : Str) (abbrevs : Dict) : Str :=
  (sortByKeyLenDesc abbrevs).foldl applyAbbrevStep text

/-- `_compress_fragment` (lines 158–202 of `tokenizer.py`). -/
def compress_fragment (text : Str) (abbrevs : Dict) : Str :=
  let t1 := VERBOSE_PHRASES.foldl (fun s p => reSubConst p.1 p.2 s) text
  let t2 := reSubConst FILLER_WORDS [] t1
  let t3 := reSubConst ARTICLES_RE [] t2
  let t4 := reSubConst PRONOUNS_RE [] t3
  let t5 := reSubConst AND_CONNECTOR_RE ("+".data) t4
  let t6 := reSubConst OR_CONNECTOR_RE ("|".data) t5
  let t7 := apply_abbreviations t6 abbrevs
  let t8 := reSubConst TRAILING_FLUFF [] t7
  let t9 := collapse_whitespace t8
  let t10 := reSubConst (seqRE [.star true spaceRE, chrRE '+', .star true spaceRE]) ("+".data) t9
  let t11 := reSubConst (seqRE [.star true spaceRE, chrRE '|', .star true spaceRE]) ("|".data) t10
  let t12 := reSubConst (seqRE [.star true spaceRE, strRE ("->".data), .star true spaceRE]) ("->".data) t11
  let t13 := reSubConst (seqRE [.star true spaceRE, strRE ("=>".data), .star true spaceRE]) ("=>".data) t12
  let t14 := reSubConst (seqRE [.star true spaceRE, strRE ("::".data), .star true spaceRE]) ("::".data) t13
  let t15 := reSub MULTI_OPERATORS (fun _ caps => capGet caps 1) t14
  stripBothBy (fun c => c = ' ' || c = '+' || c = '|' || c = ';' || c = ',' || c = '.') t15

/-- `compress_line` (lines 90–155 of `tokenizer.py`): the structural
pattern ladder, falling through to aggressive fragment compression. -/
def compress_line (line : Str) (encode_map : Dict := []) : Str :=
  if pstrip line = [] then []
  else
    let abbrevs := if encode_map = [] then ENCODE_MAP else encode_map
    let text := strip_bullet_prefix line
    let text := strip_markdown_formatting text
    match reMatchCaps CONDITIONAL_RE text with
    | some m =>
      let condition := stripRightBy (fun c => c = ':') (pstrip (capGet m 1))
      let action := stripRightBy (fun c => c = '.') (pstrip (capGet m 2))
      '?' :: compress_fragment condition abbrevs ++
        "->".data ++ compress_fragment action abbrevs
    | none =>
    match reMatchCaps NEGATION_LINE_RE text with
    | some m =>
      let content := stripRightBy (fun c => c = '.') (pstrip (capGet m 1))
      "!!".data ++ compress_fragment content abbrevs
    | none =>
    match reMatchCaps IMPERATIVE_RE text with
    | some m =>
      let content := stripRightBy (fun c => c = '.') (pstrip (capGet m 1))
      '*' :: compress_fragment content abbrevs
    | none =>
    match reMatchCaps PREFER_RE text with
    | some m =>
      let preferred := compress_fragment (pstrip (capGet m 1)) abbrevs
      let over := compress_fragment (stripRightBy (fun c => c = '.') (pstrip (capGet m 2))) abbrevs
      "prefer(".data ++ preferred ++ ")>".data ++ over
    | none =>
    match reMatchCaps BOLD_KV_RE text with
    | some m =>
      let key := compress_fragment (pstrip (capGet m 1)) abbrevs
      let val := compress_fragment (stripRightBy (fun c => c = '.') (pstrip (capGet m 2))) abbrevs
      key ++ "::".data ++ val
    | none =>
    match reMatchCaps NUMBERED_RE text with
    | some m =>
      let num := capGet m 1
      let content := compress_fragment (stripRightBy (fun c => c = '.') (pstrip (capGet m 2))) abbrevs
      '#' :: num ++ ' ' :: content
    | none => compress_fragment text abbrevs

set_option maxRecDepth 40000 in
/-- C4 (code bug): the bold key-value branch of `compress_line` is dead.
`BOLD_KV_RE` does match the raw line "**Key**: value" with groups
("Key", "value"), but `compress_line` strips the markdown bold markers
first, the stripped line "Key: value" no longer matches, and both bold
key-value spellings come out as "Key: value" with no "::" definition
separator anywhere in the output. -/
theorem claim_C4_bold_kv_dead :
    (reMatchCaps BOLD_KV_RE ("**Key**: value".data)).map
        (fun m => (capGet m 1, capGet m 2)) = some ("Key".data, "value".data) ∧
    strip_markdown_formatting ("**Key**: value".data) = "Key: value".data ∧
    reMatchCaps BOLD_KV_RE ("Key: value".data) = none ∧
    compress_line ("**Key**: value".data) = "Key: value".data ∧
    compress_line ("**Key:** value".data) = "Key: value".data ∧
    containsSub (compress_line ("**Key**: value".data)) ("::".data) = false ∧
    containsSub (compress_line ("**Key:** value".data)) ("::".data) = false := by
  refine ⟨by decide, by decide, by decide, by decide, by decide, by decide, by decide⟩

/- ------------------------------------------------------------------ -/
/- cpf/decoder.py                                                      -/
/- ------------------------------------------------------------------ -/

/-- ASCII uppercase. -/
def upperA (c : Char) : Char :=
  if 'a' ≤ c && c ≤ 'z' then Char.ofNat (c.toNat - 32) else c

/-- `_SIGIL_TITLES` of the decoder. -/
def SIGIL_TITLES : Dict :=
  [("R".data, [] ), ("P".data, "Priorities".data), ("N".data, "Restrictions".data),
   ("S".data, "Steps".data), ("T".data, []), ("X".data, "Exact Requirements".data),
   ("Z".data, "Scope".data), ("C".data, []), ("B".data, [])]

/-- Split a string at the first occurrence of a (non-empty) separator
substring: Python `s.split(sep, 1)` when the separator occurs. -/
def splitOnceSub (sep : Str) : Str → Option (Str × Str)
  | [] => none
  | c :: rest =>
    if sep.isPrefixOf (c :: rest) then some ([], (c :: rest).drop sep.length)
    else match splitOnceSub sep rest with
      | some (a, b) => some (c :: a, b)
      | none => none

/-- `_replace_outside_parens` — the depth-tracking scanner of the decoder
(`max(0, depth - 1)` is Nat subtraction). -/
def replaceOutsideParensAux (fuel : Nat) (old new : Str) (depth : Nat) (s : Str) : Str :=
  match fuel, s with
  | 0, s => s
  | _, [] => []
  | f + 1, c :: rest =>
    if c = '(' then c :: replaceOutsideParensAux f old new (depth + 1) rest
    else if c = ')' then c :: replaceOutsideParensAux f old new (depth - 1) rest
    else if depth = 0 && old ≠ [] && old.isPrefixOf (c :: rest) then
      new ++ replaceOutsideParensAux f old new depth ((c :: rest).drop old.length)
    else c :: replaceOutsideParensAux f old new depth rest

def replaceOutsideParens (s old new : Str) : Str :=
  replaceOutsideParensAux s.length old new 0 s

/-- `_apply_expansions`: entries sorted by key length descending (stable),
each substituted case-sensitively when not flanked by ASCII letters
(`(?<![a-zA-Z])abbr(?![a-zA-Z])`). -/
def apply_expansions (text : Str) (abbrevs : Dict) : Str :=
  (sortByKeyLenDesc abbrevs).foldl
    (fun s p => reSubConst
      (seqRE [lookBehindNeg isAlphaA, strRE p.1, lookAheadNeg isAlphaA]) p.2 s) text

/-- `_expand_fragment` (lines 176–195 of `decoder.py`). -/
def expand_fragment (text : Str) (abbrevs : Dict) : Str :=
  let t1 := replaceLit ("=>".data) (" results in ".data) text
  let t2 := replaceLit ("->".data) (" then ".data) t1
  let t3 := replaceLit ("@>".data) ("see ".data) t2
  let t4 := replaceOutsideParens t3 ("+".data) (" and ".data)
  let t5 := replaceOutsideParens t4 ("|".data) (" or ".data)
  let t6 := apply_expansions t5 abbrevs
  pstrip (reSubConst (plusRE true spaceRE) (" ".data) t6)

/-- `_expand_conditional` (lines 145–173 of `decoder.py`). -/
def expand_conditional (text : Str) (negated : Bool) (abbrevs : Dict) : Str :=
  match splitOnceSub ("->".data) text with
  | some (condS, action_part) =>
    let condition := expand_fragment condS abbrevs
    (match splitOnceSub (";".data) action_part with
     | some (a0, e0) =>
       let action := expand_fragment a0 abbrevs
       let else_part := pstrip e0
       if ("!!".data).isPrefixOf else_part then
         condition ++ ": ".data ++ action ++ ". Do NOT ".data ++
           expand_fragment (else_part.drop 2) abbrevs ++ ".".data
       else
         condition ++ ": ".data ++ action ++ ". Otherwise, ".data ++
           expand_fragment else_part abbrevs ++ ".".data
     | none =>
       let action := expand_fragment action_part abbrevs
       (if negated then "not ".data else []) ++ condition ++ ": ".data ++ action ++ ".".data)
  | none =>
    (if negated then "not ".data else []) ++ expand_fragment text abbrevs ++ ".".data

/-- `_capitalize`: upper-case the first character when it is a lowercase
letter. -/
def pcapitalize (text : Str) : Str :=
  match text with
  | [] => []
  | c :: rest => if 'a' ≤ c && c ≤ 'z' then upperA c :: rest else c :: rest

/-- `^#(\d+)\s+(.+)$` — the numbered-item shape of `expand_line`. -/
def NUM_ITEM_RE : RE :=
  seqRE [bosRE, chrRE '#', .group 1 (plusRE true (.cls isDigitA)),
    plusRE true spaceRE, .group 2 (plusRE true dotRE), eosRE]

/-- `^prefer\((.+?)\)>(.+)$` — the preference shape of `expand_line`. -/
def PREFER_ITEM_RE : RE :=
  seqRE [bosRE, strRE ("prefer(".data), .group 1 (plusRE false dotRE),
    strRE (")>".data), .group 2 (plusRE true dotRE), eosRE]

/-- `expand_line` (lines 86–142 of `decoder.py`). -/
def expand_line (line : Str) (abbrevs : Dict) : Str :=
  if pstrip line = [] then []
  else
    let text := pstrip line
    if ("?!".data).isPrefixOf text then
      "- Unless ".data ++ expand_conditional (text.drop 2) true abbrevs
    else if ("?".data).isPrefixOf text then
      "- If ".data ++ expand_conditional (text.drop 1) false abbrevs
    else if ("!!".data).isPrefixOf text then
      "- Do NOT ".data ++ expand_fragment (text.drop 2) abbrevs ++ ".".data
    else if ("*".data).isPrefixOf text then
      "- **".data ++ pcapitalize (expand_fragment (text.drop 1) abbrevs) ++ ".**".data
    else match reMatchCaps NUM_ITEM_RE text with
    | some m =>
      capGet m 1 ++ ". ".data ++ pcapitalize (expand_fragment (capGet m 2) abbrevs)
    | none => match reMatchCaps PREFER_ITEM_RE text with
    | some m =>
      "- Prefer ".data ++ expand_fragment (capGet m 1) abbrevs ++ " over ".data ++
        expand_fragment (capGet m 2) abbrevs ++ ".".data
    | none =>
      match (if ("@>".data).isPrefixOf text then none
             else splitOnceSub ("::".data) text) with
      | some (k, v) =>
        "- **".data ++ pcapitalize (expand_fragment k abbrevs) ++ ":** ".data ++
          expand_fragment v abbrevs ++ ".".data
      | none =>
        if ("@>".data).isPrefixOf text then
          "- See ".data ++ expand_fragment (text.drop 2) abbrevs ++ ".".data
        else
          "- ".data ++ pcapitalize (expand_fragment text abbrevs) ++ ".".data

/-- Python `str.title()` over the ASCII model: the first cased character of
each run of letters is upper-cased, the rest lower-cased. -/
def titleAAux : Str → Bool → Str
  | [], _ => []
  | c :: rest, prevAlpha =>
    if isAlphaA c then
      (if prevAlpha then lowerA c else upperA c) :: titleAAux rest true
    else c :: titleAAux rest false

def titleA (s : Str) : Str := titleAAux s false

/-- `_block_header`: section title from sigil and kebab-case block id. -/
def block_header (block : Block) : Str :=
  let base_title := (dictGet SIGIL_TITLES block.sigil).getD []
  let id_title := titleA (replaceLit ("-".data) (" ".data) block.block_id)
  if base_title ≠ [] then base_title ++ ": ".data ++ id_title
  else id_title

/-- The block-rendering loop of `decode_ast`, over one block. -/
def renderBlock (abbrevs : Dict) (block : Block) : List Str :=
  if block.sigil = "C".data then []
  else
    ("## ".data ++ block_header block) :: [] ::
      (if block.is_heredoc then block.lines ++ [[]]
       else ((block.lines.map (fun l => expand_line l abbrevs)).filter (· ≠ [])) ++ [[]])

/-- `decode_ast` (lines 45–83 of `decoder.py`). -/
def decode_ast (doc : CPFDocument) (custom_decode : Dict := []) : Str :=
  let abbrevs := dictUpdate DECODE_MAP custom_decode
  let constants := doc.get_constants
  let abbrevs := dictUpdate abbrevs constants
  let lines := ("# ".data ++ doc.metadata.title) :: [] ::
    (doc.blocks.map (renderBlock abbrevs)).flatten
  prstrip (joinNewline lines) ++ "\n".data

theorem isPrefixOf_iff_take1 (a : Char) (t : Str) :
    ([a]).isPrefixOf t = true ↔ t.take 1 = [a] := by
  cases t with
  | nil =>
    constructor
    · intro h; exact Bool.noConfusion h
    · intro h; exact List.noConfusion h
  | cons c r =>
    show (a == c && ([] : Str).isPrefixOf r) = true ↔ ([c] : Str) = [a]
    rw [show (([] : Str).isPrefixOf r) = true from by cases r <;> rfl,
      Bool.and_true, beq_iff_eq]
    constructor
    · intro h; rw [h]
    · intro h; injection h with h1; exact h1.symm

theorem isPrefixOf_iff_take2 (a b : Char) (t : Str) :
    ([a, b]).isPrefixOf t = true ↔ t.take 2 = [a, b] := by
  cases t with
  | nil =>
    constructor
    · intro h; exact Bool.noConfusion h
    · intro h; exact List.noConfusion h
  | cons c r =>
    cases r with
    | nil =>
      show (a == c && ([b] : Str).isPrefixOf []) = true ↔ ([c] : Str) = [a, b]
      rw [show (([b] : Str).isPrefixOf []) = false from rfl, Bool.and_false]
      constructor
      · intro h; exact Bool.noConfusion h
      · intro h; injection h with _ h2; exact List.noConfusion h2
    | cons d s =>
      show (a == c && (b == d && ([] : Str).isPrefixOf s)) = true ↔
        ([c, d] : Str) = [a, b]
      rw [show (([] : Str).isPrefixOf s) = true from by cases s <;> rfl,
        Bool.and_true, Bool.and_eq_true, beq_iff_eq, beq_iff_eq]
      constructor
      · rintro ⟨h1, h2⟩; rw [h1, h2]
      · intro h
        injection h with h1 h2
        injection h2 with h2 _
        exact ⟨h1.symm, h2.symm⟩

/-- `expand_line` as the spec's decision table words it, with the
corrected guard on the definition branch: the stripped line is inspected
in the order `?!`, `?`, `!!`, `*`, numbered `#N `, `prefer(A)>B`, a `::`
separator on a line NOT starting with the delegate marker `@>`, the
delegate prefix `@>`, and otherwise a generic bullet. -/
def expand_line_spec (line : Str) (abbrevs : Dict) : Str :=
  let text := pstrip line
  if text = [] then []
  else if text.take 2 = "?!".data then
    "- Unless ".data ++ expand_conditional (text.drop 2) true abbrevs
  else if text.take 1 = "?".data then
    "- If ".data ++ expand_conditional (text.drop 1) false abbrevs
  else if text.take 2 = "!!".data then
    "- Do NOT ".data ++ expand_fragment (text.drop 2) abbrevs ++ ".".data
  else if text.take 1 = "*".data then
    "- **".data ++ pcapitalize (expand_fragment (text.drop 1) abbrevs) ++ ".**".data
  else match reMatchCaps NUM_ITEM_RE text with
  | some m =>
    capGet m 1 ++ ". ".data ++ pcapitalize (expand_fragment (capGet m 2) abbrevs)
  | none => match reMatchCaps PREFER_ITEM_RE text with
  | some m =>
    "- Prefer ".data ++ expand_fragment (capGet m 1) abbrevs ++ " over ".data ++
      expand_fragment (capGet m 2) abbrevs ++ ".".data
  | none =>
    match (if text.take 2 = "@>".data then none
           else splitOnceSub ("::".data) text) with
    | some (k, v) =>
      "- **".data ++ pcapitalize (expand_fragment k abbrevs) ++ ":** ".data ++
        expand_fragment v abbrevs ++ ".".data
    | none =>
      if text.take 2 = "@>".data then
        "- See ".data ++ expand_fragment (text.drop 2) abbrevs ++ ".".data
      else
        "- ".data ++ pcapitalize (expand_fragment text abbrevs) ++ ".".data

/-- The dispatch table exactly as the claim words it: identical to
`expand_line_spec` except that the `::` definition branch is tried BEFORE
the `@>` delegate branch with no guard at all. -/
def expand_line_claim (line : Str) (abbrevs : Dict) : Str :=
  let text := pstrip line
  if text = [] then []
  else if text.take 2 = "?!".data then
    "- Unless ".data ++ expand_conditional (text.drop 2) true abbrevs
  else if text.take 1 = "?".data then
    "- If ".data ++ expand_conditional (text.drop 1) false abbrevs
  else if text.take 2 = "!!".data then
    "- Do NOT ".data ++ expand_fragment (text.drop 2) abbrevs ++ ".".data
  else if text.take 1 = "*".data then
    "- **".data ++ pcapitalize (expand_fragment (text.drop 1) abbrevs) ++ ".**".data
  else match reMatchCaps NUM_ITEM_RE text with
  | some m =>
    capGet m 1 ++ ". ".data ++ pcapitalize (expand_fragment (capGet m 2) abbrevs)
  | none => match reMatchCaps PREFER_ITEM_RE text with
  | some m =>
    "- Prefer ".data ++ expand_fragment (capGet m 1) abbrevs ++ " over ".data ++
      expand_fragment (capGet m 2) abbrevs ++ ".".data
  | none =>
    match splitOnceSub ("::".data) text with
    | some (k, v) =>
      "- **".data ++ pcapitalize (expand_fragment k abbrevs) ++ ":** ".data ++
        expand_fragment v abbrevs ++ ".".data
    | none =>
      if text.take 2 = "@>".data then
        "- See ".data ++ expand_fragment (text.drop 2) abbrevs ++ ".".data
      else
        "- ".data ++ pcapitalize (expand_fragment text abbrevs) ++ ".".data

set_option maxRecDepth 40000 in
/-- C5 counterexample: the claim lists the `::` definition branch before
the `@>` delegate branch with no guard; on the line "@>x::y" the code
takes the delegate branch ("- See x::y.") while the claimed table takes
the definition branch ("- **See x:** y."). -/
theorem claim_C5_counterexample :
    expand_line ("@>x::y".data) DECODE_MAP = "- See x::y.".data ∧
    expand_line_claim ("@>x::y".data) DECODE_MAP = "- **See x:** y.".data ∧
    expand_line ("@>x::y".data) DECODE_MAP ≠
      expand_line_claim ("@>x::y".data) DECODE_MAP := by
  refine ⟨by decide, by decide, by decide⟩

set_option maxRecDepth 40000 in
/-- C5 (amended): `expand_line` equals the spec's dispatch table for every
line and abbreviation table, once the definition branch is guarded so that
a line starting with "@>" goes to the delegate branch even when it
contains "::"; and the two concrete scenarios hold: the conditional line
expands to a sentence containing "If" and "and", the negation line to a
sentence containing "NOT". -/
theorem claim_C5_expand_dispatch :
    (∀ line abbrevs, expand_line line abbrevs = expand_line_spec line abbrevs) ∧
    containsSub (expand_line ("?mnt mod exists->recommend+link".data) DECODE_MAP)
      ("If".data) = true ∧
    containsSub (expand_line ("?mnt mod exists->recommend+link".data) DECODE_MAP)
      ("and".data) = true ∧
    containsSub (expand_line ("!!commit secrets".data) DECODE_MAP)
      ("NOT".data) = true := by
  refine ⟨fun line abbrevs => ?_, by decide, by decide, by decide⟩
  unfold expand_line expand_line_spec
  dsimp only
  by_cases h0 : pstrip line = []
  · rw [if_pos h0, if_pos h0]
  rw [if_neg h0, if_neg h0]
  by_cases h1 : (pstrip line).take 2 = "?!".data
  · rw [if_pos ((isPrefixOf_iff_take2 '?' '!' (pstrip line)).mpr h1), if_pos h1]
  rw [if_neg (fun hc => h1 ((isPrefixOf_iff_take2 '?' '!' (pstrip line)).mp hc)),
    if_neg h1]
  by_cases h2 : (pstrip line).take 1 = "?".data
  · rw [if_pos ((isPrefixOf_iff_take1 '?' (pstrip line)).mpr h2), if_pos h2]
  rw [if_neg (fun hc => h2 ((isPrefixOf_iff_take1 '?' (pstrip line)).mp hc)),
    if_neg h2]
  by_cases h3 : (pstrip line).take 2 = "!!".data
  · rw [if_pos ((isPrefixOf_iff_take2 '!' '!' (pstrip line)).mpr h3), if_pos h3]
  rw [if_neg (fun hc => h3 ((isPrefixOf_iff_take2 '!' '!' (pstrip line)).mp hc)),
    if_neg h3]
  by_cases h4 : (pstrip line).take 1 = "*".data
  · rw [if_pos ((isPrefixOf_iff_take1 '*' (pstrip line)).mpr h4), if_pos h4]
  rw [if_neg (fun hc => h4 ((isPrefixOf_iff_take1 '*' (pstrip line)).mp hc)),
    if_neg h4]
  by_cases h5 : (pstrip line).take 2 = "@>".data
  · rw [if_pos ((isPrefixOf_iff_take2 '@' '>' (pstrip line)).mpr h5), if_pos h5,
      if_pos ((isPrefixOf_iff_take2 '@' '>' (pstrip line)).mpr h5), if_pos h5]
  · rw [if_neg (fun hc => h5 ((isPrefixOf_iff_take2 '@' '>' (pstrip line)).mp hc)),
      if_neg h5,
      if_neg (fun hc => h5 ((isPrefixOf_iff_take2 '@' '>' (pstrip line)).mp hc)),
      if_neg h5]

theorem dictGet_cons_eq (q : Str × Str) (t : Dict) (k : Str) (h : q.1 = k) :
    dictGet (q :: t) k = some q.2 := by
  unfold dictGet
  rw [@List.find?_cons_of_pos _ (fun r => decide (r.1 = k)) q t (decide_eq_true h)]
  rfl

theorem dictGet_cons_ne (q : Str × Str) (t : Dict) (k : Str) (h : ¬(q.1 = k)) :
    dictGet (q :: t) k = dictGet t k := by
  unfold dictGet
  rw [@List.find?_cons_of_neg _ (fun r => decide (r.1 = k)) q t
    (fun hc => h (of_decide_eq_true hc))]

theorem dictHasKey_cons_false (q : Str × Str) (t : Dict) (k : Str)
    (h : dictHasKey (q :: t) k = false) :
    ¬(q.1 = k) ∧ dictHasKey t k = false := by
  unfold dictHasKey at h
  rw [List.any_cons] at h
  have h2 := Bool.or_eq_false_iff.mp h
  exact ⟨fun hc => Bool.noConfusion ((decide_eq_true hc) ▸ h2.1), h2.2⟩

theorem dictGet_map_set_ne (d : Dict) (k v k' : Str) (h : k' ≠ k) :
    dictGet (d.map (fun p => if p.1 = k then (k, v) else p)) k' = dictGet d k' := by
  induction d with
  | nil => rfl
  | cons p t ih =>
    rw [List.map_cons]
    by_cases hp : p.1 = k
    · rw [if_pos hp, dictGet_cons_ne (k, v) _ k' (fun hc => h hc.symm),
        dictGet_cons_ne p t k' (fun hc => h (hp ▸ hc).symm)]
      exact ih
    · rw [if_neg hp]
      by_cases hd : p.1 = k'
      · rw [dictGet_cons_eq p _ k' hd, dictGet_cons_eq p t k' hd]
      · rw [dictGet_cons_ne p _ k' hd, dictGet_cons_ne p t k' hd]
        exact ih

theorem dictGet_map_set_eq (d : Dict) (k v : Str) (h : dictHasKey d k = true) :
    dictGet (d.map (fun p => if p.1 = k then (k, v) else p)) k = some v := by
  induction d with
  | nil => exact Bool.noConfusion h
  | cons p t ih =>
    rw [List.map_cons]
    by_cases hp : p.1 = k
    · rw [if_pos hp, dictGet_cons_eq (k, v) _ k rfl]
    · have h2 : dictHasKey t k = true := by
        unfold dictHasKey at h
        rw [List.any_cons] at h
        rcases Bool.or_eq_true_iff.mp h with h3 | h3
        · exact absurd (of_decide_eq_true h3) hp
        · exact h3
      rw [if_neg hp, dictGet_cons_ne p _ k hp]
      exact ih h2

theorem dictGet_append_single (d : Dict) (k v k' : Str) (h : dictHasKey d k = false) :
    dictGet (d ++ [(k, v)]) k' = if k' = k then some v else dictGet d k' := by
  induction d with
  | nil =>
    rw [List.nil_append]
    by_cases hk : k' = k
    · rw [dictGet_cons_eq (k, v) [] k' hk.symm, if_pos hk]
    · rw [dictGet_cons_ne (k, v) [] k' (fun hc => hk hc.symm), if_neg hk]
  | cons p t ih =>
    have h0 := dictHasKey_cons_false p t k h
    rw [List.cons_append]
    by_cases hd : p.1 = k'
    · rw [dictGet_cons_eq p _ k' hd, dictGet_cons_eq p t k' hd,
        if_neg (fun hc => h0.1 (hd.trans hc))]
    · rw [dictGet_cons_ne p _ k' hd, dictGet_cons_ne p t k' hd]
      exact ih h0.2

theorem dictGet_dictSet (d : Dict) (k v k' : Str) :
    dictGet (dictSet d k v) k' = if k' = k then some v else dictGet d k' := by
  unfold dictSet
  cases hh : dictHasKey d k
  · rw [if_neg Bool.false_ne_true]
    exact dictGet_append_single d k v k' hh
  · rw [if_pos rfl]
    by_cases hk : k' = k
    · rw [if_pos hk, hk]
      exact dictGet_map_set_eq d k v hh
    · rw [if_neg hk]
      exact dictGet_map_set_ne d k v k' hk

/-- Keys of a dict are pairwise distinct. -/
def dictKeysNodup (d : Dict) : Prop := (d.map Prod.fst).Nodup

theorem dictGet_eq_none_of_not_mem (d : Dict) (k : Str)
    (h : k ∉ d.map Prod.fst) : dictGet d k = none := by
  induction d with
  | nil => rfl
  | cons p t ih =>
    have hp : ¬(p.1 = k) := fun hc =>
      h (by rw [List.map_cons, hc]; exact List.mem_cons_self _ _)
    have ht : k ∉ t.map Prod.fst := fun hc =>
      h (by rw [List.map_cons]; exact List.mem_cons_of_mem _ hc)
    rw [dictGet_cons_ne p t k hp]
    exact ih ht

theorem dictGet_dictUpdate (d e : Dict) (he : dictKeysNodup e) (k : Str) :
    dictGet (dictUpdate d e) k = (dictGet e k).or (dictGet d k) := by
  induction e generalizing d with
  | nil => rfl
  | cons p t ih =>
    have h0 : p.1 ∉ t.map Prod.fst ∧ (t.map Prod.fst).Nodup := by
      have h1 := he
      unfold dictKeysNodup at h1
      rw [List.map_cons] at h1
      exact List.nodup_cons.mp h1
    show dictGet (dictUpdate (dictSet d p.1 p.2) t) k = _
    rw [ih (dictSet d p.1 p.2) h0.2, dictGet_dictSet]
    by_cases hk : k = p.1
    · rw [if_pos hk, dictGet_cons_eq p t k hk.symm,
        dictGet_eq_none_of_not_mem t k (hk ▸ h0.1)]
      rfl
    · rw [if_neg hk, dictGet_cons_ne p t k (fun hc => hk hc.symm)]

theorem foldl_preserve {α β : Type} {P : β → Prop} (f : β → α → β)
    (hf : ∀ b a, P b → P (f b a)) :
    ∀ (l : List α) (b : β), P b → P (l.foldl f b) := by
  intro l
  induction l with
  | nil => intro b hb; exact hb
  | cons a t ih => intro b hb; exact ih (f b a) (hf b a hb)

theorem not_mem_keys_of_hasKey_false (d : Dict) (k : Str)
    (h : dictHasKey d k = false) : k ∉ d.map Prod.fst := by
  induction d with
  | nil => intro hc; exact (List.not_mem_nil k) hc
  | cons p t ih =>
    have h0 := dictHasKey_cons_false p t k h
    intro hc
    rw [List.map_cons] at hc
    rcases List.mem_cons.mp hc with hc | hc
    · exact h0.1 hc.symm
    · exact ih h0.2 hc

theorem dictSet_keysNodup (d : Dict) (k v : Str) (h : dictKeysNodup d) :
    dictKeysNodup (dictSet d k v) := by
  unfold dictSet
  cases hh : dictHasKey d k
  · rw [if_neg Bool.false_ne_true]
    unfold dictKeysNodup at *
    rw [List.map_append, List.nodup_append]
    refine ⟨h, List.nodup_singleton k, ?_⟩
    intro a ha hb
    rcases List.mem_singleton.mp hb with rfl
    exact (not_mem_keys_of_hasKey_false d a hh) ha
  · rw [if_pos rfl]
    unfold dictKeysNodup at *
    have e : (d.map (fun p => if p.1 = k then (k, v) else p)).map Prod.fst
        = d.map Prod.fst := by
      rw [List.map_map]
      apply List.map_congr_left
      intro p _
      by_cases hp : p.1 = k
      · show (if p.1 = k then (k, v) else p).1 = p.1
        rw [if_pos hp, hp]
      · show (if p.1 = k then (k, v) else p).1 = p.1
        rw [if_neg hp]
    rw [e]
    exact h

theorem get_constants_keysNodup (doc : CPFDocument) :
    dictKeysNodup doc.get_constants := by
  unfold CPFDocument.get_constants
  apply foldl_preserve
  · intro acc b hacc
    apply foldl_preserve _ _ _ _ hacc
    intro acc2 line h2
    apply foldl_preserve _ _ _ _ h2
    intro acc3 pr h3
    dsimp only
    cases hc : containsSub (pstrip pr) ("::".data)
    · rw [if_neg Bool.false_ne_true]
      exact h3
    · rw [if_pos rfl]
      exact dictSet_keysNodup _ _ _ h3
  · exact List.nodup_nil

theorem renderBlocks_filter (A : Dict) (bs : List Block) :
    ((bs.filter (fun b => ¬(b.sigil = "C".data))).map (renderBlock A)).flatten
      = (bs.map (renderBlock A)).flatten := by
  induction bs with
  | nil => rfl
  | cons b t ih =>
    rw [List.filter_cons]
    by_cases hb : b.sigil = "C".data
    · rw [if_neg (by simp [hb]), List.map_cons, List.flatten_cons,
        show renderBlock A b = [] from by unfold renderBlock; rw [if_pos hb],
        List.nil_append, ih]
    · rw [if_pos (by simp [hb]), List.map_cons, List.map_cons,
        List.flatten_cons, List.flatten_cons, ih]

/-- The rendering `decode_ast` performs, as the spec describes it: the
title header followed by the rendered blocks of the given list only. -/
def decodeRenderSpec (title : Str) (blocks : List Block) (abbrevs : Dict) : Str :=
  prstrip (joinNewline (("# ".data ++ title) :: [] ::
    (blocks.map (renderBlock abbrevs)).flatten)) ++ "\n".data

set_option maxRecDepth 80000 in
/-- C10: `decode_ast` renders exactly the non-constant blocks — the output
equals the rendering of `doc.blocks` with every sigil-C block filtered
out — over the abbreviation table built from the built-in decode map,
the custom overrides, and then the C-block constants; a key defined by a
constant always wins the lookup over the built-in and custom entries; and
on a concrete document with a C block defining `api` and `N`, the C lines
are absent from the output while both constants are expanded inside the
other blocks. -/
theorem claim_C10_constant_blocks :
    (∀ (doc : CPFDocument) (custom : Dict),
      decode_ast doc custom
        = decodeRenderSpec doc.metadata.title
            (doc.blocks.filter (fun b => ¬(b.sigil = "C".data)))
            (dictUpdate (dictUpdate DECODE_MAP custom) doc.get_constants)) ∧
    (∀ (doc : CPFDocument) (custom : Dict) (k : Str),
      dictGet (dictUpdate (dictUpdate DECODE_MAP custom) doc.get_constants) k
        = (dictGet doc.get_constants k).or
            (dictGet (dictUpdate DECODE_MAP custom) k)) ∧
    decode_ast
      { version := "v1".data,
        metadata := { doc_id := "d".data, title := "My Doc".data,
                      timestamp := "t".data, source := "s".data },
        blocks := [
          { sigil := "C".data, block_id := "consts".data,
            lines := ["api::application programming interface;N::5".data],
            is_heredoc := false },
          { sigil := "R".data, block_id := "core-rules".data,
            lines := ["*use api".data, "!!break N things".data],
            is_heredoc := false },
          { sigil := "B".data, block_id := "blob-x".data,
            lines := ["raw <line>".data, "  two".data], is_heredoc := true }] }
      = ("# My Doc\n\n## Core Rules\n\n- **Use application programming interface.**\n- Do NOT break 5 things.\n\n## Blob X\n\nraw <line>\n  two\n").data := by
  refine ⟨fun doc custom => ?_, fun doc custom k => ?_, by decide⟩
  · unfold decode_ast decodeRenderSpec
    dsimp only
    rw [renderBlocks_filter]
  · exact dictGet_dictUpdate _ _ (get_constants_keysNodup doc) k

/- ------------------------------------------------------------------ -/
/- cpf/encoder.py                                                      -/
/- ------------------------------------------------------------------ -/

/-- The section accumulator of `_split_sections`: flush the current
(header, lines) pair when a section was open or lines were collected. -/
def flushSection (curH : Option Str) (curL : List Str) :
    List (Option Str × List Str) :=
  match curH, curL with
  | none, [] => []
  | _, _ => [(curH, curL)]

def splitSectionsAux : List Str → Option Str → List Str →
    List (Option Str × List Str)
  | [], curH, curL => flushSection curH curL
  | line :: rest, curH, curL =>
    match extract_section_header line with
    | some h => flushSection curH curL ++ splitSectionsAux rest (some h) []
    | none => splitSectionsAux rest curH (curL ++ [line])

/-- `_split_sections` (lines 133–158 of `encoder.py`). -/
def split_sections (text : Str) : List (Option Str × List Str) :=
  splitSectionsAux (splitLines text) none []

/-- `_extract_exact_matches` (computed by `encode` but discarded: the
branch that uses it is `pass`). -/
def extract_exact_matches (lines : List Str) : List Str :=
  lines.filterMap (fun l => (reSearchCaps EXACT_MATCH_RE l).map (fun m => capGet m 1))

/-- Count occurrences of paths of length ≥ 30, first-seen order. -/
def bumpCount : List (Str × Nat) → Str → List (Str × Nat)
  | [], p => [(p, 1)]
  | (q, n) :: t, p => if q = p then (q, n + 1) :: t else (q, n) :: bumpCount t p

def pathCounts (paths : List Str) : List (Str × Nat) :=
  paths.foldl (fun acc p => if p.length ≥ 30 then bumpCount acc p else acc) []

/-- The alias generated from a path's last component: lower-cased, dots and
spaces hyphenated, truncated to 12 characters. -/
def aliasOf (path : Str) : Str :=
  let parts := splitOnChar '/' (stripRightBy (fun c => c = '/') path)
  let last := (parts.getLast?).getD []
  ((last.map lowerA).map
    (fun c => if c = '.' then '-' else if c = ' ' then '-' else c)).take 12

def extractAliasesLoop : List (Str × Nat) → List (Str × Str) → Nat →
    List (Str × Str)
  | [], acc, _ => acc
  | (path, count) :: t, acc, counter =>
    if count < 2 then extractAliasesLoop t acc counter
    else
      let alias0 := aliasOf path
      let aliasName := if acc.any (fun q => q.2 = alias0)
        then alias0 ++ natToStr counter else alias0
      extractAliasesLoop t (acc ++ [(path, aliasName)]) (counter + 1)

/-- `_extract_path_aliases` (lines 171–197 of `encoder.py`): long paths
occurring at least twice, stably sorted by descending count, each mapped
to a short alias. -/
def extract_path_aliases (text : Str) : List (Str × Str) :=
  extractAliasesLoop
    (stableSort (fun a b => b.2 ≤ a.2) (pathCounts (reFindAll PATH_REF_RE text)))
    [] 0

/-- The per-section block construction of `encode` (lines 69–109):
classification, path-heavy override to Z, line compression, alias
substitution. Ratio comparison `path_count / len > 0.5` is taken exactly
as `2 * path_count > len`. -/
def encodeSectionBlock (abbrevs : Dict) (path_aliases : List (Str × Str))
    (header : Str) (lines : List Str) : Option Block :=
  let content_lines := lines.filter (fun l => ¬(pstrip l = []))
  if content_lines = [] then none
  else
    let sigil := classify_section header content_lines
    let block_id := (slugify header).take 50
    let path_count := (content_lines.filter (fun l => reSearch PATH_REF_RE l)).length
    let sigil := if path_count > 0 ∧ 2 * path_count > content_lines.length
      then "Z".data else sigil
    let compressed_lines := (content_lines.map (fun line =>
        let compressed := compress_line line abbrevs
        if ¬(compressed = []) ∧ path_aliases ≠ [] then
          path_aliases.foldl (fun s pa => replaceLit pa.1 ('$' :: pa.2) s) compressed
        else compressed)).filter (fun l => ¬(l = []))
    if compressed_lines = [] then none
    else some { sigil := sigil, block_id := block_id,
                lines := compressed_lines, is_heredoc := false }

/-- `encode` (lines 21–112 of `encoder.py`) up to document construction;
`datetime.now` is passed in as the `timestamp` argument. -/
def encodeDoc (timestamp text : Str) (doc_id : Str := []) (title : Str := [])
    (source : Str := []) (custom_abbrevs : Dict := []) : CPFDocument :=
  let abbrevs := dictUpdate ENCODE_MAP custom_abbrevs
  let sections := split_sections text
  let title' := if title = [] then
      (match sections.find? (fun s =>
          match s.1 with | some h => ¬(h = []) | none => false) with
       | some (some h, _) => h
       | _ => "Untitled".data)
    else title
  let doc_id' := if doc_id = [] then (slugify title').take 40 else doc_id
  let metadata : Metadata :=
    { doc_id := doc_id', title := title', source := source, timestamp := timestamp }
  let path_aliases := extract_path_aliases text
  let constBlocks : List Block :=
    if path_aliases ≠ [] then
      [{ sigil := "C".data, block_id := "paths".data,
         lines := path_aliases.map (fun pa => '$' :: pa.2 ++ "::".data ++ pa.1),
         is_heredoc := false }]
    else []
  let sectionBlocks := sections.filterMap (fun s =>
      match s.1 with
      | none => none
      | some h =>
        if h = [] ∨ s.2 = [] then none
        else encodeSectionBlock abbrevs path_aliases h s.2)
  { version := "v1".data, metadata := metadata,
    blocks := constBlocks ++ sectionBlocks }

/-- `encode`: the formatted text of the constructed document. -/
def encode (timestamp text : Str) (doc_id : Str := []) (title : Str := [])
    (source : Str := []) (custom_abbrevs : Dict := []) : Str :=
  format_document (encodeDoc timestamp text doc_id title source custom_abbrevs)

/-- The error-severity entries of an issue list. -/
def errsOf (l : List VErr) : List VErr :=
  l.filter (fun e => e.severity = "error".data)

/-- Content lines acceptable to the validator: break-free, and no line
that looks like a block header once stripped. -/
def vcontentOK (lines : List Str) : Bool :=
  lines.all (fun l => lineBreakFree l && (blockHeaderMatch (pstrip l)).isNone)

/-- What the validator needs of a block to report no error. -/
def vblockWF (b : Block) : Bool :=
  dictHasKey SIGILS b.sigil && !(b.sigil == "B".data) && (b.is_heredoc == false) &&
  lineBreakFree b.block_id && (pstrip b.block_id == b.block_id) &&
  !(b.block_id == ([] : Str)) && vcontentOK b.lines

/-- What the validator needs of a document to report no error. -/
def vdocWF (d : CPFDocument) : Bool :=
  metadataWF d.metadata && d.blocks.all vblockWF

theorem validateBlocks_skip (ls : List Str) :
    (∀ l ∈ ls, blockHeaderMatch (pstrip l) = none) →
    ∀ (rest : List Str) (i : Nat) (ids : List Str) (hStart fuel : Nat),
      validateBlocks (fuel + ls.length) (ls ++ rest) i ids false hStart
        = validateBlocks fuel rest (i + ls.length) ids false hStart := by
  induction ls with
  | nil => intro _ rest i ids hStart fuel; rfl
  | cons l t ih =>
    intro hh rest i ids hStart fuel
    have hl := hh l (List.mem_cons_self l t)
    have ht : ∀ x ∈ t, blockHeaderMatch (pstrip x) = none :=
      fun x hx => hh x (List.mem_cons_of_mem l hx)
    show validateBlocks ((fuel + t.length) + 1) (l :: (t ++ rest)) i ids false hStart = _
    rw [validateBlocks]
    rw [if_neg Bool.false_ne_true]
    rw [show i + (l :: t).length = (i + 1) + t.length from by simp; omega]
    by_cases hblank : pstrip l = []
    · rw [if_pos hblank]
      exact ih ht rest (i + 1) ids hStart fuel
    · rw [if_neg hblank]
      simp only [hl]
      exact ih ht rest (i + 1) ids hStart fuel

theorem validateBlocks_chunk_noerr (bs : List Block) :
    ∀ i ids hStart fuel, bs.all vblockWF = true → (chunkLines bs).length ≤ fuel →
      errsOf (validateBlocks fuel (chunkLines bs) i ids false hStart) = [] := by
  induction bs with
  | nil => intro i ids hStart fuel _ _; cases fuel <;> rfl
  | cons b rest ih =>
    intro i ids hStart fuel hwf hfuel
    simp only [List.all_cons, Bool.and_eq_true] at hwf
    obtain ⟨hb, hrest⟩ := hwf
    unfold vblockWF at hb
    simp only [Bool.and_eq_true] at hb
    obtain ⟨⟨⟨⟨⟨⟨hkey, hnotB⟩, hhd⟩, hbrk⟩, hstrip⟩, hne⟩, hcont⟩ := hb
    have hstrip' : pstrip b.block_id = b.block_id := by simpa using hstrip
    have hne' : b.block_id ≠ [] := by simpa using hne
    have hhd' : b.is_heredoc = false := by simpa using hhd
    have hnotB' : b.sigil ≠ "B".data := by simpa using hnotB
    have hCnone : ∀ l ∈ b.lines, blockHeaderMatch (pstrip l) = none := by
      intro l hl
      unfold vcontentOK at hcont
      rw [List.all_eq_true] at hcont
      have := hcont l hl
      simp only [Bool.and_eq_true, Option.isNone_iff_eq_none] at this
      exact this.2
    obtain ⟨c, hc, hself, hmatch⟩ := headerLine_facts b hkey hbrk hstrip' hne'
    have hbco : blockContentOut b = b.lines := by
      simp [blockContentOut, hhd']
    rw [chunkLines_cons, hbco] at hfuel ⊢
    cases fuel with
    | zero => simp at hfuel
    | succ f =>
      rw [validateBlocks]
      rw [if_neg Bool.false_ne_true]
      have hnotblank : ¬ (pstrip (headerLineOf b) = []) := by
        rw [hself]
        simp [headerLineOf]
      rw [if_neg hnotblank]
      simp only [hself, hmatch]
      rw [hstrip']
      rw [if_neg (fun hcon : ([c] : Str) = "B".data => hnotB' (hc.trans hcon))]
      rw [if_neg (fun hcon : ¬(dictHasKey SIGILS ([c] : Str) = true) => hcon (hc ▸ hkey))]
      rw [if_neg hne']
      rw [List.nil_append]
      have htail : ∀ ids' : List Str,
          errsOf (validateBlocks f (b.lines ++ chunkSep rest) (i + 1) ids' false hStart) = [] := by
        intro ids'
        rw [show f = (f - b.lines.length) + b.lines.length from by
          simp only [List.length_cons, List.length_append] at hfuel
          omega]
        rw [validateBlocks_skip b.lines hCnone (chunkSep rest) (i + 1) ids' hStart
          (f - b.lines.length)]
        cases rest with
        | nil =>
          have hz : validateBlocks (f - b.lines.length) (chunkSep [])
              (i + 1 + b.lines.length) ids' false hStart = [] := by
            cases f - b.lines.length <;> rfl
          rw [hz]
          rfl
        | cons r t =>
          have hflen : 1 + (chunkLines (r :: t)).length ≤ f - b.lines.length := by
            simp only [List.length_cons, List.length_append, chunkSep] at hfuel ⊢
            omega
          cases hfb : f - b.lines.length with
          | zero =>
            exfalso
            omega
          | succ f2 =>
            rw [hfb] at hflen
            show errsOf (validateBlocks (f2 + 1) (([] : Str) :: chunkLines (r :: t))
              (i + 1 + b.lines.length) ids' false hStart) = []
            rw [validateBlocks]
            rw [if_neg Bool.false_ne_true]
            dsimp only
            rw [if_pos (show pstrip ([] : Str) = [] from rfl)]
            have := ih (i + 1 + b.lines.length + 1) ids' hStart f2 hrest (by omega)
            exact this
      cases hcon : ids.contains b.block_id
      · rw [if_neg Bool.false_ne_true, List.nil_append]
        exact htail (b.block_id :: ids)
      · rw [if_pos rfl]
        show errsOf ((⟨i + 1,
            ("Duplicate block ID '".data) ++ b.block_id ++ ("'".data),
            "warning".data⟩ : VErr) :: validateBlocks f
              (b.lines ++ chunkSep rest) (i + 1) (b.block_id :: ids) false hStart) = []
        exact htail (b.block_id :: ids)

theorem vformatLines_breakFree (d : CPFDocument) (h : vdocWF d = true) :
    ∀ l ∈ formatLines d, lineBreakFree l = true := by
  unfold vdocWF at h
  simp only [Bool.and_eq_true] at h
  obtain ⟨hm, hbs⟩ := h
  have h1 := (metadataWF_fields d.metadata hm d.metadata.doc_id (by simp)).1
  have h2 := (metadataWF_fields d.metadata hm d.metadata.title (by simp)).1
  have h3 := (metadataWF_fields d.metadata hm d.metadata.source (by simp)).1
  have h4 := (metadataWF_fields d.metadata hm d.metadata.timestamp (by simp)).1
  intro l hl
  rw [formatLines_meta] at hl
  simp only [List.mem_cons] at hl
  rcases hl with hl | hl | hl | hl
  · subst hl; decide
  · subst hl
    have hpre : lineBreakFree METADATA_PREFIX = true := by decide
    have hbar : (!isPyLineBreak '|') = true := by decide
    rw [show metaLineOf d.metadata = METADATA_PREFIX ++ (d.metadata.doc_id
        ++ '|' :: (d.metadata.title ++ '|' :: (d.metadata.source
        ++ '|' :: d.metadata.timestamp))) from by simp [metaLineOf]]
    simp [lineBreakFree_append, lineBreakFree_cons, h1, h2, h3, h4, hpre, hbar]
  · subst hl; decide
  · rw [List.mem_flatten] at hl
    obtain ⟨ls, hls, hlmem⟩ := hl
    rw [List.mem_map] at hls
    obtain ⟨b, hbmem, hbeq⟩ := hls
    have hbwf : vblockWF b = true := by
      rw [List.all_eq_true] at hbs
      exact hbs b hbmem
    unfold vblockWF at hbwf
    simp only [Bool.and_eq_true] at hbwf
    obtain ⟨⟨⟨⟨⟨⟨hkey, _⟩, hhd⟩, hbrk⟩, _⟩, _⟩, hcont⟩ := hbwf
    have hhd' : b.is_heredoc = false := by simpa using hhd
    obtain ⟨c, hc, hcu⟩ := sigil_key_shape b.sigil hkey
    subst hbeq
    simp [blockOutLines] at hlmem
    rcases hlmem with hl1 | hl1 | hl1
    · subst hl1; decide
    · subst hl1
      unfold headerLineOf
      rw [hc]
      rw [show ('@' :: ([c] : Str) ++ ':' :: b.block_id)
          = '@' :: c :: ':' :: b.block_id from rfl]
      rw [lineBreakFree_cons, lineBreakFree_cons, lineBreakFree_cons]
      have hAt : (!isPyLineBreak '@') = true := by decide
      have hCol : (!isPyLineBreak ':') = true := by decide
      simp [hbrk, upper_not_break c hcu, hAt, hCol]
    · unfold blockContentOut at hl1
      rw [hhd'] at hl1
      rw [if_neg Bool.false_ne_true] at hl1
      unfold vcontentOK at hcont
      rw [List.all_eq_true] at hcont
      have := hcont l hl1
      simp only [Bool.and_eq_true] at this
      exact this.1

theorem validate_format_noerr (d : CPFDocument) (h : vdocWF d = true) :
    errsOf (validate (format_document d)) = [] := by
  have h0 := h
  unfold vdocWF at h0
  simp only [Bool.and_eq_true] at h0
  obtain ⟨hm, hbs⟩ := h0
  have hbf := vformatLines_breakFree d h
  have hsplit : splitLines (format_document d) = formatLines d := by
    unfold format_document
    exact splitLines_joinNewline _ hbf (by rw [formatLines_meta]; simp)
  unfold validate
  rw [hsplit, formatLines_meta]
  dsimp only
  rw [if_neg (show ¬(pstrip FORMAT_HEADER ≠ FORMAT_HEADER) from
    fun hcc => hcc (by decide))]
  rw [metaLine_strip d.metadata hm]
  rw [if_neg (by
    show ¬ (¬ (List.isPrefixOf METADATA_PREFIX (metaLineOf d.metadata) = true))
    simp [metaLineOf, METADATA_PREFIX, List.isPrefixOf])]
  have hf := metadataWF_fields d.metadata hm
  obtain ⟨_, hid2, _⟩ := hf d.metadata.doc_id (by simp)
  obtain ⟨_, hti2, _⟩ := hf d.metadata.title (by simp)
  obtain ⟨_, hso2, _⟩ := hf d.metadata.source (by simp)
  obtain ⟨_, hts2, _⟩ := hf d.metadata.timestamp (by simp)
  rw [show (metaLineOf d.metadata).drop METADATA_PREFIX.length
      = d.metadata.doc_id ++ '|' :: (d.metadata.title ++ '|' :: (d.metadata.source
        ++ '|' :: d.metadata.timestamp))
    from by simp [metaLineOf, METADATA_PREFIX]]
  rw [splitOnChar_pipe_append _ _ hid2, splitOnChar_pipe_append _ _ hti2,
    splitOnChar_pipe_append _ _ hso2, splitOnChar_pipe_free _ hts2]
  rw [if_neg (show ¬(([d.metadata.doc_id, d.metadata.title, d.metadata.source,
      d.metadata.timestamp] : List Str).length < 4) from by simp)]
  rw [if_neg (show ¬(pstrip SECTION_SEPARATOR ≠ SECTION_SEPARATOR) from
    fun hcc => hcc (by decide))]
  rw [List.nil_append, List.nil_append]
  rw [flatten_blockOut_eq_chunk]
  cases hbl : d.blocks with
  | nil => rfl
  | cons b rest =>
    show errsOf (validateBlocks (([] : Str) :: chunkLines (b :: rest)).length
      (([] : Str) :: chunkLines (b :: rest)) 3 [] false 0) = []
    rw [show (([] : Str) :: chunkLines (b :: rest)).length
        = (chunkLines (b :: rest)).length + 1 from by simp]
    rw [validateBlocks]
    rw [if_neg Bool.false_ne_true]
    dsimp only
    rw [if_pos (show pstrip ([] : Str) = [] from rfl)]
    exact validateBlocks_chunk_noerr (b :: rest) 4 [] 0 _
      (by rw [← hbl]; exact hbs) (le_refl _)

set_option maxRecDepth 80000 in
/-- C2 counterexample: the claim fails without well-formedness conditions —
a title containing a line break ("x\ny") makes `encode` emit a metadata
line that splits in two, and validating the output reports two
error-severity entries (so the document is not valid). -/
theorem claim_C2_counterexample :
    errorCount (encode ("TS".data) [] [] ("x\ny".data)) = 2 ∧
    is_valid (encode ("TS".data) [] [] ("x\ny".data)) = false := by
  refine ⟨by decide, by decide⟩

/-- C2 (amended): for every input and optional arguments such that the
document the encoder constructs is textually well-formed for the validator
(`vdocWF`: metadata fields break-free, pipe-free and strip-stable; every
block a non-heredoc block with a known non-B sigil, a non-empty
strip-stable break-free id, and break-free content lines none of which
strips to an `@SIGIL:id` header shape), `validate(encode(...))` reports
zero error-severity entries (warnings are permitted). -/
theorem claim_C2_validate_encode :
    ∀ timestamp text doc_id title source custom_abbrevs,
      vdocWF (encodeDoc timestamp text doc_id title source custom_abbrevs) = true →
      errorCount (encode timestamp text doc_id title source custom_abbrevs) = 0 := by
  intro ts text di ti so ca h
  unfold encode errorCount
  have h2 := validate_format_noerr _ h
  unfold errsOf at h2
  rw [h2]
  rfl

set_option maxRecDepth 80000 in
/-- C2 witness: a concrete markdown document whose encoded form is
well-formed and validates with zero errors. -/
theorem claim_C2_validate_encode_witness :
    vdocWF (encodeDoc ("TS".data)
      ("## Rules\n\n- Do NOT commit secrets.\n- Always check the documentation first.\n".data)) = true ∧
    errorCount (encode ("TS".data)
      ("## Rules\n\n- Do NOT commit secrets.\n- Always check the documentation first.\n".data)) = 0 :=
  ⟨by decide, claim_C2_validate_encode ("TS".data) _ [] [] [] [] (by decide)⟩
